import Mathlib

/-!
Verification of the retail-analytics agent (hybrid RAG + SQL workflow).

Shallow embedding of the repository's core:
  * `parse_final_answer` (src/run_agent_hybrid.py) — answer coercion;
  * `LocalRetriever.search` (src/agent/rag/retrieval.py) — lexical retrieval;
  * `SQLiteTool.execute_query` (src/agent/rag/tools/sqlite_tool.py);
  * the dspy module wrappers (src/agent/dspy_signatures.py);
  * the orchestration state machine (src/agent/graph_hybrid.py).

External collaborators (the llama completion backend, the sqlite3 driver,
the BM25Okapi scorer) are modelled as abstract oracles: the surrounding
repository code is embedded faithfully, and every language-model or
database response is universally quantified in the step relation.
Python stdlib helpers that the coercion layer calls (`json.loads`,
`ast.literal_eval`, `int(...)`, `float(...)`, `re.findall`) are modelled
as executable Lean functions restricted to the documented behaviour of
those functions on the constructs this repository exercises.
-/

namespace Spec2Proof

/-! ### Python value model (answer coercion results) -/

/-- Model of a Python float as produced by `float(str)`: either a finite value
(modelled exactly as a rational; every decimal literal is representable) or one
of the special values `inf`, `-inf`, `nan`. -/
inductive PyFloat where
  | finite (q : ℚ)
  | posInf
  | negInf
  | nan
deriving DecidableEq, Repr

/-- Model of the Python values `parse_final_answer` can return: ints, floats,
strings, booleans, `None`, lists, tuples and dicts (dicts as association
lists in insertion order, which is how Python dicts are ordered). -/
inductive PyValue where
  | int (n : ℤ)
  | float (f : PyFloat)
  | str (s : String)
  | bool (b : Bool)
  | none
  | list (xs : List PyValue)
  | tuple (xs : List PyValue)
  | dict (kvs : List (PyValue × PyValue))

/-! ### Character-level helpers shared by the string-processing models -/

/-- Python's `\d` regex class and the digit class accepted by `int()`/`float()`
are the same class (Unicode decimal digits).  We model all of them with one
predicate (ASCII digits); using a single predicate preserves the relationship
the proofs depend on: a string `int()`/`float()` accepts as a number contains a
`\d` character. -/
def isDigitChar (c : Char) : Bool := c.isDigit

/-- Maximal leading run of digits, together with the remaining characters. -/
def takeDigits : List Char → List Char × List Char
  | [] => ([], [])
  | c :: cs =>
    if isDigitChar c then
      let p := takeDigits cs
      (c :: p.1, p.2)
    else ([], c :: cs)

/-- Model of Python `str.strip()` (and of the stripping `int()`/`float()`
perform): drop whitespace from both ends. -/
def stripChars (cs : List Char) : List Char :=
  ((cs.dropWhile Char.isWhitespace).reverse.dropWhile Char.isWhitespace).reverse

/-- Numeric value of a digit run (most significant first). -/
def digitsToNat (l : List Char) : ℕ :=
  l.foldl (fun a c => a * 10 + (c.toNat - '0'.toNat)) 0

/-! ### Model of `re.findall(r'-?\d+', s)[0]` — first signed integer substring.

`re.findall` scans left to right; at each position the pattern `-?\d+` matches
iff the position starts with a digit, or with `-` immediately followed by a
digit; the match then greedily takes the digit run. -/

def findIntSub : List Char → Option (List Char)
  | [] => Option.none
  | c :: cs =>
    if isDigitChar c then some (c :: (takeDigits cs).1)
    else if c = '-' then
      match cs with
      | [] => Option.none
      | d :: _ =>
        if isDigitChar d then some ('-' :: (takeDigits cs).1)
        else findIntSub cs
    else findIntSub cs

/-- After the mandatory digit run of `-?\d+\.?\d*`, the optional `.` and the
optional trailing digit run. -/
def takeFloatTail (cs : List Char) : List Char :=
  match cs with
  | '.' :: rest => '.' :: (takeDigits rest).1
  | _ => []

/-- Model of `re.findall(r'-?\d+\.?\d*', s)[0]` — first signed decimal
substring.  Same scanning discipline as `findIntSub`. -/
def findFloatSub : List Char → Option (List Char)
  | [] => Option.none
  | c :: cs =>
    if isDigitChar c then
      let p := takeDigits cs
      some (c :: p.1 ++ takeFloatTail p.2)
    else if c = '-' then
      match cs with
      | [] => Option.none
      | d :: _ =>
        if isDigitChar d then
          let p := takeDigits cs
          some ('-' :: p.1 ++ takeFloatTail p.2)
        else findFloatSub cs
    else findFloatSub cs

/-- Integer value of a matched `-?\d+` substring (this is what
`int(match)` returns; on these matches `int` always succeeds). -/
def intSubVal (l : List Char) : ℤ :=
  match l with
  | '-' :: ds => -Int.ofNat (digitsToNat ds)
  | ds => Int.ofNat (digitsToNat ds)

/-- Exact rational value of a decimal number with integer digits `ip`,
fraction digits `fp`, sign `neg` and decimal exponent `ed` (negative exponent
when `eneg`).  Built with `mkRat` and machine `Nat`/`Int` arithmetic so the
kernel can evaluate it. -/
def ratOfDigits (neg : Bool) (ip fp : List Char) (eneg : Bool) (ed : ℕ) : ℚ :=
  let n : ℕ := digitsToNat ip * 10 ^ fp.length + digitsToNat fp
  let num : ℤ := if neg then -(Int.ofNat n) else Int.ofNat n
  if eneg then mkRat num (10 ^ fp.length * 10 ^ ed)
  else mkRat (num * Int.ofNat (10 ^ ed)) (10 ^ fp.length)

/-- Negation on `ℚ` through the kernel-evaluable core operation. -/
def ratNeg (q : ℚ) : ℚ := Rat.neg q

/-- Rational value of an unsigned `\d+\.?\d*` match. -/
def floatDigitsVal (ds : List Char) : ℚ :=
  let ip := ds.takeWhile isDigitChar
  let rest := ds.dropWhile isDigitChar
  let fp := match rest with
    | '.' :: fs => fs
    | _ => []
  ratOfDigits false ip fp false 0

/-- Value of a matched `-?\d+\.?\d*` substring (what `float(match)` returns;
on these matches `float` always succeeds and the value is exact). -/
def floatSubVal (l : List Char) : ℚ :=
  match l with
  | '-' :: ds => ratNeg (floatDigitsVal ds)
  | ds => floatDigitsVal ds

/-! ### Models of Python `int(str)` and `float(str)` on arbitrary strings.

These are only reached by `parse_final_answer` when the corresponding regex
found no match, i.e. when the answer string contains no digit at all (proved
below); we therefore omit the digit-group-underscore feature, which is
invisible on that reachable domain. -/

/-- Model of Python `int(s)` for a string argument: optional surrounding
whitespace, an optional sign, then a non-empty digit run. -/
def pyIntOfChars (cs : List Char) : Option ℤ :=
  let cs := stripChars cs
  let signed : Bool × List Char :=
    match cs with
    | '-' :: r => (true, r)
    | '+' :: r => (false, r)
    | r => (false, r)
  if signed.2 ≠ [] ∧ signed.2.all isDigitChar then
    some (if signed.1 then -Int.ofNat (digitsToNat signed.2) else Int.ofNat (digitsToNat signed.2))
  else Option.none

/-- Decimal part of Python `float(s)`: `d+ [. d*] [exp]` or `. d+ [exp]` with
`exp = (e|E) sign? d+`. -/
def parseDecimalChars (cs : List Char) : Option ℚ :=
  let ip := cs.takeWhile isDigitChar
  let r1 := cs.dropWhile isDigitChar
  let hasDot : Bool := r1.head? = some '.'
  let afterDot := if hasDot then r1.tail else r1
  let fp := if hasDot then afterDot.takeWhile isDigitChar else []
  let r2 := if hasDot then afterDot.dropWhile isDigitChar else r1
  if ip = [] ∧ fp = [] then Option.none
  else
    match r2 with
    | [] => some (ratOfDigits false ip fp false 0)
    | e :: r3 =>
      if e = 'e' ∨ e = 'E' then
        let se : Bool × List Char :=
          match r3 with
          | '-' :: r => (true, r)
          | '+' :: r => (false, r)
          | r => (false, r)
        if se.2 ≠ [] ∧ se.2.all isDigitChar then
          some (ratOfDigits false ip fp se.1 (digitsToNat se.2))
        else Option.none
      else Option.none

/-- Model of Python `float(s)` for a string argument: optional surrounding
whitespace, optional sign, then either a case-insensitive special name
(`inf`, `infinity`, `nan`) or a decimal form. -/
def pyFloatOfChars (cs : List Char) : Option PyFloat :=
  let cs := stripChars cs
  let signed : Bool × List Char :=
    match cs with
    | '-' :: r => (true, r)
    | '+' :: r => (false, r)
    | r => (false, r)
  let low := signed.2.map Char.toLower
  if low = "inf".data ∨ low = "infinity".data then
    some (if signed.1 then PyFloat.negInf else PyFloat.posInf)
  else if low = "nan".data then some PyFloat.nan
  else
    match parseDecimalChars signed.2 with
    | some q => some (PyFloat.finite (if signed.1 then ratNeg q else q))
    | Option.none => Option.none

/-! ### Small string utilities.

Core `String.toLower`, `String.trim` and `String.splitOn` are defined by
well-founded recursion on byte positions, which the kernel cannot evaluate;
we model the Python string operations with structurally recursive functions
on the character list instead (Python strings are sequences of code points,
as Lean `List Char` is). -/

/-- The single-quote character. -/
def sq : Char := Char.ofNat 39

/-- The left-brace character. -/
def lbrace : Char := Char.ofNat 123

/-- The right-brace character. -/
def rbrace : Char := Char.ofNat 125

/-- Model of Python `str.lower()` (ASCII case mapping; every string the code
lowercases here is an ASCII format hint or routing token). -/
def lowerStr (s : String) : String := String.mk (s.data.map Char.toLower)

/-- Model of Python `str.strip()` at the `String` level. -/
def pyStrip (s : String) : String := String.mk (stripChars s.data)

/-- Model of Python `str.split(sep)` for a single-character separator. -/
def splitOnCharAux : List Char → Char → List Char → List (List Char)
  | [], _, acc => [acc.reverse]
  | c :: cs, sep, acc =>
    if c = sep then acc.reverse :: splitOnCharAux cs sep []
    else splitOnCharAux cs sep (c :: acc)

/-- Does `needle` occur at the head of the second list? -/
def prefixMatch : List Char → List Char → Bool
  | [], _ => true
  | _ :: _, [] => false
  | n :: ns, h :: hs => n = h && prefixMatch ns hs

/-- Model of Python `needle in hay` substring containment. -/
def containsSub : List Char → List Char → Bool
  | _, [] => true
  | [], _ :: _ => false
  | h :: hs, needle => prefixMatch needle (h :: hs) || containsSub hs needle

/-- Substring containment at the `String` level. -/
def containsStr (hay needle : String) : Bool := containsSub hay.data needle.data

/-! ### Model of `json.loads` (src/run_agent_hybrid.py calls it on answers that
start with `[` or the left brace).

The model follows the JSON grammar as `json.loads` implements it: values are
objects, arrays, strings, numbers, `true`/`false`/`null`; numbers may not have
leading zeros; a fraction needs a digit after the dot; strings use the eight
single-character escapes (the `\uXXXX` escape is outside the modelled subset,
and no input under analysis uses it).  JSON whitespace is space, tab, LF, CR. -/

def skipWsJ (cs : List Char) : List Char :=
  cs.dropWhile (fun c => c = ' ' || c = '\t' || c = '\n' || c = '\r')

/-- JSON string escape characters. -/
def jsonEsc (c : Char) : Option Char :=
  if c = '"' then some '"'
  else if c = '\\' then some '\\'
  else if c = '/' then some '/'
  else if c = 'b' then some (Char.ofNat 8)
  else if c = 'f' then some (Char.ofNat 12)
  else if c = 'n' then some '\n'
  else if c = 'r' then some '\r'
  else if c = 't' then some '\t'
  else Option.none

/-- Characters of a JSON string after the opening quote, and the remainder. -/
def jsonStringChars : List Char → Option (List Char × List Char)
  | [] => Option.none
  | '"' :: cs => some ([], cs)
  | '\\' :: [] => Option.none
  | '\\' :: e :: cs2 =>
    match jsonEsc e, jsonStringChars cs2 with
    | some ce, some p => some (ce :: p.1, p.2)
    | _, _ => Option.none
  | c :: cs =>
    match jsonStringChars cs with
    | some p => some (c :: p.1, p.2)
    | _ => Option.none

/-- A JSON number (returned as a Python `int` when it has neither fraction nor
exponent, else as a float, exactly as `json.loads` does). -/
def parseJsonNumber (cs : List Char) : Option (PyValue × List Char) :=
  let sgn : Bool × List Char :=
    match cs with
    | '-' :: r => (true, r)
    | r => (false, r)
  let ip := sgn.2.takeWhile isDigitChar
  let r1 := sgn.2.dropWhile isDigitChar
  if ip.isEmpty then Option.none
  else if 1 < ip.length ∧ ip.head? = some '0' then Option.none
  else
    let hasDot : Bool := r1.head? = some '.'
    let fp := if hasDot then r1.tail.takeWhile isDigitChar else []
    let r2 := if hasDot then r1.tail.dropWhile isDigitChar else r1
    if hasDot ∧ fp.isEmpty then Option.none
    else
      let hasExp : Bool := r2.head? = some 'e' ∨ r2.head? = some 'E'
      if hasExp then
        let se : Bool × List Char :=
          match r2.tail with
          | '-' :: r => (true, r)
          | '+' :: r => (false, r)
          | r => (false, r)
        let ed := se.2.takeWhile isDigitChar
        if ed.isEmpty then Option.none
        else
          some (.float (.finite (ratOfDigits sgn.1 ip fp se.1 (digitsToNat ed))),
            se.2.dropWhile isDigitChar)
      else if hasDot then some (.float (.finite (ratOfDigits sgn.1 ip fp false 0)), r2)
      else
        let n : ℤ := Int.ofNat (digitsToNat ip)
        some (.int (if sgn.1 then -n else n), r2)

mutual

/-- A JSON value, fuel-indexed (fuel only bounds bracket nesting). -/
def parseJsonValue : ℕ → List Char → Option (PyValue × List Char)
  | 0, _ => Option.none
  | fuel + 1, cs0 =>
    let cs := skipWsJ cs0
    match cs with
    | '"' :: rest =>
      match jsonStringChars rest with
      | some p => some (.str (String.mk p.1), p.2)
      | Option.none => Option.none
    | '[' :: rest =>
      let r2 := skipWsJ rest
      if r2.head? = some ']' then some (.list [], r2.tail)
      else
        match parseJsonElems fuel r2 with
        | some p => some (.list p.1, p.2)
        | Option.none => Option.none
    | 't' :: 'r' :: 'u' :: 'e' :: rest => some (.bool true, rest)
    | 'f' :: 'a' :: 'l' :: 's' :: 'e' :: rest => some (.bool false, rest)
    | 'n' :: 'u' :: 'l' :: 'l' :: rest => some (.none, rest)
    | c :: rest =>
      if c = lbrace then
        let r2 := skipWsJ rest
        if r2.head? = some rbrace then some (.dict [], r2.tail)
        else
          match parseJsonMembers fuel r2 with
          | some p => some (.dict p.1, p.2)
          | Option.none => Option.none
      else parseJsonNumber (c :: rest)
    | [] => Option.none

/-- Elements of a non-empty JSON array, up to and including `]`. -/
def parseJsonElems : ℕ → List Char → Option (List PyValue × List Char)
  | 0, _ => Option.none
  | fuel + 1, cs =>
    match parseJsonValue fuel cs with
    | some (v, rest) =>
      match skipWsJ rest with
      | ',' :: r2 =>
        match parseJsonElems fuel r2 with
        | some p => some (v :: p.1, p.2)
        | Option.none => Option.none
      | ']' :: r2 => some ([v], r2)
      | _ => Option.none
    | Option.none => Option.none

/-- Members of a non-empty JSON object, up to and including the right brace. -/
def parseJsonMembers : ℕ → List Char → Option (List (PyValue × PyValue) × List Char)
  | 0, _ => Option.none
  | fuel + 1, cs =>
    match skipWsJ cs with
    | '"' :: rest =>
      match jsonStringChars rest with
      | some kp =>
        match skipWsJ kp.2 with
        | ':' :: r2 =>
          match parseJsonValue fuel r2 with
          | some (v, r3) =>
            match skipWsJ r3 with
            | ',' :: r4 =>
              match parseJsonMembers fuel r4 with
              | some p => some ((.str (String.mk kp.1), v) :: p.1, p.2)
              | Option.none => Option.none
            | c :: r4 =>
              if c = rbrace then some ([(.str (String.mk kp.1), v)], r4)
              else Option.none
            | [] => Option.none
          | Option.none => Option.none
        | _ => Option.none
      | Option.none => Option.none
    | _ => Option.none

end

/-- Model of `json.loads` on a whole string: one value, then only whitespace. -/
def jsonLoads (cs : List Char) : Option PyValue :=
  match parseJsonValue (cs.length + 1) cs with
  | some (v, rest) => if skipWsJ rest = [] then some v else Option.none
  | Option.none => Option.none

/-! ### Model of `ast.literal_eval` (the permissive literal parse of
src/run_agent_hybrid.py).

The model covers the literal grammar: numbers (with optional unary sign),
single- and double-quoted strings with the common single-character escapes,
`True`/`False`/`None`, lists, parenthesized and top-level tuples (with
trailing commas), and dicts.  Set literals, complex numbers, hex/octal/binary
integer forms, digit-group underscores and string concatenation are outside
the modelled subset: an identifier or any unsupported form fails, exactly as
the callers rely on (`literal_eval` failure falls through to the next coercion
stage).  Whitespace handling is uniform (Python restricts bare newlines
outside brackets; no input under analysis is affected). -/

def skipWsP (cs : List Char) : List Char := cs.dropWhile Char.isWhitespace

/-- Python string escape characters (modelled subset). -/
def pyEsc (c : Char) : Option Char :=
  if c = '\\' then some '\\'
  else if c = 'n' then some '\n'
  else if c = 't' then some '\t'
  else if c = 'r' then some '\r'
  else if c = '"' then some '"'
  else if c = sq then some sq
  else Option.none

/-- Characters of a Python string literal after the opening quote `q`. -/
def pyStringChars (q : Char) : List Char → Option (List Char × List Char)
  | [] => Option.none
  | c :: cs =>
    if c = q then some ([], cs)
    else if c = '\\' then
      match cs with
      | [] => Option.none
      | e :: cs2 =>
        match pyEsc e, pyStringChars q cs2 with
        | some ce, some p => some (ce :: p.1, p.2)
        | _, _ => Option.none
    else
      match pyStringChars q cs with
      | some p => some (c :: p.1, p.2)
      | _ => Option.none

/-- An unsigned Python number literal: `d+ [. d*] [exp]` or `. d+ [exp]`,
yielding an `int` when it has neither dot nor exponent. -/
def parsePyNumber (cs : List Char) : Option (PyValue × List Char) :=
  let ip := cs.takeWhile isDigitChar
  let r1 := cs.dropWhile isDigitChar
  let hasDot : Bool := r1.head? = some '.'
  let fp := if hasDot then r1.tail.takeWhile isDigitChar else []
  let r2 := if hasDot then r1.tail.dropWhile isDigitChar else r1
  if ip.isEmpty ∧ fp.isEmpty then Option.none
  else
    let hasExp : Bool := r2.head? = some 'e' ∨ r2.head? = some 'E'
    if hasExp then
      let se : Bool × List Char :=
        match r2.tail with
        | '-' :: r => (true, r)
        | '+' :: r => (false, r)
        | r => (false, r)
      let ed := se.2.takeWhile isDigitChar
      if ed.isEmpty then Option.none
      else
        some (.float (.finite (ratOfDigits false ip fp se.1 (digitsToNat ed))),
          se.2.dropWhile isDigitChar)
    else if hasDot then some (.float (.finite (ratOfDigits false ip fp false 0)), r2)
    else some (.int (Int.ofNat (digitsToNat ip)), r2)

/-- Negate a numeric `PyValue` (for unary minus in literals). -/
def pyNeg : PyValue → PyValue
  | .int n => .int (-n)
  | .float (.finite q) => .float (.finite (-q))
  | v => v

mutual

/-- One Python literal expression, fuel-indexed. -/
def parsePyValue : ℕ → List Char → Option (PyValue × List Char)
  | 0, _ => Option.none
  | fuel + 1, cs0 =>
    let cs := skipWsP cs0
    match cs with
    | [] => Option.none
    | 'T' :: 'r' :: 'u' :: 'e' :: rest => some (.bool true, rest)
    | 'F' :: 'a' :: 'l' :: 's' :: 'e' :: rest => some (.bool false, rest)
    | 'N' :: 'o' :: 'n' :: 'e' :: rest => some (.none, rest)
    | '[' :: rest =>
      let r2 := skipWsP rest
      if r2.head? = some ']' then some (.list [], r2.tail)
      else
        match parsePyElems fuel ']' r2 with
        | some p => some (.list p.1, p.2)
        | Option.none => Option.none
    | '(' :: rest =>
      let r2 := skipWsP rest
      if r2.head? = some ')' then some (.tuple [], r2.tail)
      else parsePyParen fuel r2
    | '-' :: rest =>
      match parsePyValue fuel rest with
      | some (v, r2) => some (pyNeg v, r2)
      | Option.none => Option.none
    | '+' :: rest => parsePyValue fuel rest
    | c :: rest =>
      if c = sq then
        match pyStringChars sq rest with
        | some p => some (.str (String.mk p.1), p.2)
        | Option.none => Option.none
      else if c = '"' then
        match pyStringChars '"' rest with
        | some p => some (.str (String.mk p.1), p.2)
        | Option.none => Option.none
      else if c = lbrace then
        let r2 := skipWsP rest
        if r2.head? = some rbrace then some (.dict [], r2.tail)
        else
          match parsePyMembers fuel r2 with
          | some p => some (.dict p.1, p.2)
          | Option.none => Option.none
      else parsePyNumber (c :: rest)

/-- Comma-separated elements up to and including the closer (trailing comma
allowed, as in Python display literals). -/
def parsePyElems : ℕ → Char → List Char → Option (List PyValue × List Char)
  | 0, _, _ => Option.none
  | fuel + 1, closer, cs =>
    match parsePyValue fuel cs with
    | some (v, rest) =>
      match skipWsP rest with
      | ch :: r2 =>
        if ch = closer then some ([v], r2)
        else if ch = ',' then
          let r3 := skipWsP r2
          if r3.head? = some closer then some ([v], r3.tail)
          else
            match parsePyElems fuel closer r3 with
            | some p => some (v :: p.1, p.2)
            | Option.none => Option.none
        else Option.none
      | [] => Option.none
    | Option.none => Option.none

/-- Contents of a parenthesized expression: either a plain parenthesized
literal or a tuple display. -/
def parsePyParen : ℕ → List Char → Option (PyValue × List Char)
  | 0, _ => Option.none
  | fuel + 1, cs =>
    match parsePyValue fuel cs with
    | some (v, rest) =>
      match skipWsP rest with
      | ')' :: r2 => some (v, r2)
      | ',' :: r2 =>
        let r3 := skipWsP r2
        if r3.head? = some ')' then some (.tuple [v], r3.tail)
        else
          match parsePyElems fuel ')' r3 with
          | some p => some (.tuple (v :: p.1), p.2)
          | Option.none => Option.none
      | _ => Option.none
    | Option.none => Option.none

/-- Members of a non-empty dict display, up to and including the right brace
(a set display — value not followed by `:` — is outside the modelled subset
and fails). -/
def parsePyMembers : ℕ → List Char → Option (List (PyValue × PyValue) × List Char)
  | 0, _ => Option.none
  | fuel + 1, cs =>
    match parsePyValue fuel cs with
    | some (k, rest) =>
      match skipWsP rest with
      | ':' :: r2 =>
        match parsePyValue fuel r2 with
        | some (v, r3) =>
          match skipWsP r3 with
          | ',' :: r4 =>
            let r5 := skipWsP r4
            if r5.head? = some rbrace then some ([(k, v)], r5.tail)
            else
              match parsePyMembers fuel r5 with
              | some p => some ((k, v) :: p.1, p.2)
              | Option.none => Option.none
          | ch :: r4 =>
            if ch = rbrace then some ([(k, v)], r4)
            else Option.none
          | [] => Option.none
        | Option.none => Option.none
      | _ => Option.none
    | Option.none => Option.none

end

/-- Remaining top-level tuple elements (`literal_eval` accepts a bare
top-level tuple such as `1, 2`). -/
def parsePyTopElems : ℕ → List Char → Option (List PyValue × List Char)
  | 0, _ => Option.none
  | fuel + 1, cs =>
    match parsePyValue fuel cs with
    | some (v, rest) =>
      match skipWsP rest with
      | ',' :: r2 =>
        let r3 := skipWsP r2
        if r3 = [] then some ([v], [])
        else
          match parsePyTopElems fuel r3 with
          | some p => some (v :: p.1, p.2)
          | Option.none => Option.none
      | rest2 => some ([v], rest2)
    | Option.none => Option.none

/-- A whole top-level literal expression, including bare tuples. -/
def parsePyTop (fuel : ℕ) (cs : List Char) : Option (PyValue × List Char) :=
  match parsePyValue fuel cs with
  | some (v, rest) =>
    match skipWsP rest with
    | ',' :: r2 =>
      let r3 := skipWsP r2
      if r3 = [] then some (.tuple [v], [])
      else
        match parsePyTopElems fuel r3 with
        | some p => some (.tuple (v :: p.1), p.2)
        | Option.none => Option.none
    | rest2 => some (v, rest2)
  | Option.none => Option.none

/-- Model of `ast.literal_eval` on a whole string. -/
def literalEval (cs : List Char) : Option PyValue :=
  match parsePyTop (cs.length + 1) cs with
  | some (v, rest) => if skipWsP rest = [] then some v else Option.none
  | Option.none => Option.none

/-! ### Answer coercion — `parse_final_answer` (src/run_agent_hybrid.py,
lines 20-80), embedded branch for branch. -/

/-- Fallback comma split of the list branch: split on commas and strip each
item when a comma is present, else a one-element list of the whole string. -/
def commaSplit (a : List Char) : PyValue :=
  if a.contains ',' then
    .list ((splitOnCharAux a ',' []).map (fun t => .str (String.mk (stripChars t))))
  else .list [.str (String.mk a)]

/-- Model of `parse_final_answer(answer_str, format_hint)`: the answer string
is stripped, then coerced according to the (lower-cased) format hint.  The
embedding mirrors the source exactly; in particular, for list and dict hints
the string is given to `json.loads` when it starts with `[` (resp. the left
brace) and to `ast.literal_eval` otherwise — the stage that was not chosen is
never attempted. -/
def parse_final_answer (answer_str : String) (format_hint : String) : PyValue :=
  let a : List Char := stripChars answer_str.data
  if lowerStr format_hint = "int" then
    match findIntSub a with
    | some m => .int (intSubVal m)
    | Option.none =>
      match pyIntOfChars a with
      | some n => .int n
      | Option.none => .int 0
  else if lowerStr format_hint = "float" then
    match findFloatSub a with
    | some m => .float (.finite (floatSubVal m))
    | Option.none =>
      match pyFloatOfChars a with
      | some f => .float f
      | Option.none => .float (.finite 0)
  else if containsStr (lowerStr format_hint) "list" then
    if a.head? = some '[' then
      match jsonLoads a with
      | some v => v
      | Option.none => commaSplit a
    else
      match literalEval a with
      | some v => v
      | Option.none => commaSplit a
  else if containsStr (lowerStr format_hint) "dict" then
    if a.head? = some lbrace then
      match jsonLoads a with
      | some v => v
      | Option.none => .dict [(.str "value", .str (String.mk a))]
    else
      match literalEval a with
      | some v => v
      | Option.none => .dict [(.str "value", .str (String.mk a))]
  else .str (String.mk a)

/-! ### Lexical retriever — `LocalRetriever` (src/agent/rag/retrieval.py).

Chunks are `{doc_id, content}` records.  The BM25Okapi scorer is an external
library; it is modelled as an abstract scoring function from the tokenized
query to one score per indexed chunk (`get_scores` returns an array of length
equal to the corpus size).  `search` embeds the source's
`sorted(range(len(scores)), key=lambda i: scores[i], reverse=True)[:k]`:
Python's `sorted` is a stable sort, and `reverse=True` keeps equal-key
elements in original order, so the line is modelled by the stable
`insertionSort` under the relation "score of `i` is at least score of `j`". -/

/-- A document chunk / retrieved document record `{doc_id, content}`. -/
structure Doc where
  doc_id : String
  content : String
deriving DecidableEq

instance : Inhabited Doc := ⟨⟨"", ""⟩⟩

/-- The regex class `\w` of the tokenizer. -/
def isWordChar (c : Char) : Bool := c.isAlphanum || c = '_'

/-- Maximal `\w+` runs of a character list (`re.findall(r'\w+', ·)`). -/
def wordRunsAux : List Char → List Char → List (List Char)
  | [], acc => if acc.isEmpty then [] else [acc.reverse]
  | c :: cs, acc =>
    if isWordChar c then wordRunsAux cs (c :: acc)
    else if acc.isEmpty then wordRunsAux cs []
    else acc.reverse :: wordRunsAux cs []

/-- Model of `LocalRetriever._tokenize`: lower-case, then alphanumeric runs. -/
def tokenize (text : String) : List String :=
  (wordRunsAux (lowerStr text).data []).map String.mk

/-- Model of a `LocalRetriever` instance after `_load_and_index_docs`: the
chunk list, and the BM25 index when one was built (`None` when the docs path
was missing or held no chunks).  The scorer is abstract: any function from
the tokenized query to a score list. -/
structure LocalRetriever where
  chunks : List Doc
  bm25 : Option (List String → List ℚ)

/-- Score comparison used for the descending sort: chunk `i` ranks at least
as high as chunk `j`. -/
def scoreGe (scores : List ℚ) (i j : ℕ) : Prop :=
  scores.getD j 0 ≤ scores.getD i 0

instance (scores : List ℚ) : DecidableRel (scoreGe scores) :=
  fun i j => inferInstanceAs (Decidable (scores.getD j 0 ≤ scores.getD i 0))

/-- The sorted index list of `search`: indices of the score array, stably
sorted by descending score. -/
def searchIdx (scores : List ℚ) : List ℕ :=
  List.insertionSort (scoreGe scores) (List.range scores.length)

/-- Model of `LocalRetriever.search`: empty result when no index or no
chunks, else the top-`k` chunks by descending score.  `getD` stands for the
Python indexing `self.chunks[idx]`, in bounds because BM25 returns one score
per chunk (the length agreement is a hypothesis of the theorems). -/
def search (r : LocalRetriever) (query : String) (k : ℕ) : List Doc :=
  match r.bm25 with
  | Option.none => []
  | some f =>
    if r.chunks.isEmpty then []
    else
      let scores := f (tokenize query)
      ((searchIdx scores).take k).map (fun i => r.chunks.getD i default)

/-! ### SQL tool — `SQLiteTool.execute_query`
(src/agent/rag/tools/sqlite_tool.py, lines 48-83).

The sqlite3 driver is an external collaborator; one `connect`/`execute`/
`fetchall` round trip is modelled as an abstract outcome: success with an
optional result set (the cursor's `description` is `None` for statements
with no result set) or an exception with its message.  Cell values are kept
abstract as their textual form — no claim inspects a cell. -/

/-- A row of a result set. -/
abbrev Row := List String

/-- The `{columns, rows, error}` record returned by `execute_query`. -/
structure SqlResult where
  columns : List String
  rows : List Row
  error : String
deriving DecidableEq

/-- Outcome of executing one SQL string against the database. -/
inductive DBOutcome where
  | ok (description : Option (List String × List Row))
  | exn (msg : String)

/-- Model of `SQLiteTool.execute_query`: starts from the all-empty record,
fills `columns`/`rows` when the cursor has a description, and on an exception
stores the message, leaving `columns`/`rows` empty.  Total by construction —
the function never raises. -/
def execute_query (o : DBOutcome) : SqlResult :=
  match o with
  | .ok Option.none => { columns := [], rows := [], error := "" }
  | .ok (some (cols, rows)) => { columns := cols, rows := rows, error := "" }
  | .exn m => { columns := [], rows := [], error := m }

/-! ### dspy module wrappers (src/agent/dspy_signatures.py).

One `dspy.Predict` call is modelled as an abstract outcome: either a result
object (which may or may not carry the expected output attribute — the code
guards with `hasattr`) or an exception. -/

/-- Outcome of one completion (`dspy.Predict`) call: a result whose expected
output field may be present (`hasField`) with text `text`, or an exception. -/
inductive PredictOutcome where
  | ok (hasField : Bool) (text : String)
  | exn (msg : String)

/-- Model of `RouterModule.forward` (lines 121-135): returns the completion's
`tool_choice` text, or `"hybrid"` when the attribute is missing or the call
raised.  Total — it never raises. -/
def RouterModule.forward (o : PredictOutcome) : String :=
  match o with
  | .ok true t => t
  | .ok false _ => "hybrid"
  | .exn _ => "hybrid"

/-- Model of `SQLGeneratorModule.forward` (lines 162-183): the completion's
`sql_query` text, or the placeholder `"SELECT 1"` on a missing attribute or
an exception.  Total — it never raises. -/
def SQLGeneratorModule.forward (o : PredictOutcome) : String :=
  match o with
  | .ok true t => t
  | .ok false _ => "SELECT 1"
  | .exn _ => "SELECT 1"

/-- Outcome of one synthesizer completion call: a result with the two output
attributes possibly present, or an exception. -/
inductive SynthOutcome where
  | ok (hasFA hasEx : Bool) (fa ex : String)
  | exn (msg : String)

/-- Model of `SynthesizerModule.forward` (lines 194-233): the pair
`(final_answer, explanation)` with per-attribute fallbacks, or the fixed
error answer on an exception.  Total — it never raises. -/
def SynthesizerModule.forward (o : SynthOutcome) : String × String :=
  match o with
  | .ok hfa hex fa ex =>
    (if hfa then fa else "No answer generated",
     if hex then ex else "Unable to explain")
  | .exn m => ("Error generating answer", m)

/-! ### Orchestrator state machine (src/agent/graph_hybrid.py).

`AgentState` is the TypedDict threaded through every node.  The initial
state dict built by `process_question` (src/run_agent_hybrid.py) has
`sql_result = {}` and no `route` key; both are modelled with `Option`
(`none` = empty dict / absent key), matching the `state.get(...)` accesses
and Python truthiness tests in the source. -/

/-- The shared agent state record. -/
structure AgentState where
  question : String
  format_hint : String
  sql_query : String
  sql_result : Option SqlResult
  retrieved_docs : List Doc
  final_answer : String
  confidence : ℚ
  explanation : String
  citations : List String
  error_count : Option ℕ
  route : Option String

/-- Truthiness of `state["sql_result"].get("error")`: the result dict is
present and its error string non-empty. -/
def sqlResultErrored (s : AgentState) : Prop :=
  match s.sql_result with
  | some r => r.error ≠ ""
  | Option.none => False

instance (s : AgentState) : Decidable (sqlResultErrored s) := by
  unfold sqlResultErrored
  exact match s.sql_result with
  | some r => inferInstanceAs (Decidable (r.error ≠ ""))
  | Option.none => inferInstanceAs (Decidable False)

/-- The initial state of one request (`process_question`, lines 94-105). -/
def initialState (question format_hint : String) : AgentState :=
  { question := question
    format_hint := format_hint
    sql_query := ""
    sql_result := Option.none
    retrieved_docs := []
    final_answer := ""
    confidence := 0
    explanation := ""
    citations := []
    error_count := some 0
    route := Option.none }

/-- Model of `router_node` (lines 39-52): normalize the forward result
(lower-case, strip), default anything outside the three tokens to
`"hybrid"`, and write the route.  The `.error` case models the node's own
`except` arm (unreachable in this model because `RouterModule.forward` is
total, but embedded for fidelity). -/
def router_node (fwd : Except String String) (s : AgentState) : AgentState :=
  let tool_choice : String :=
    match fwd with
    | .ok t =>
      let t := pyStrip (lowerStr t)
      if t = "rag" ∨ t = "sql" ∨ t = "hybrid" then t else "hybrid"
    | .error _ => "hybrid"
  { s with route := some tool_choice }

/-- Model of `retrieval_node` (lines 55-59): `retriever.search(question, 3)`. -/
def retrieval_node (r : LocalRetriever) (s : AgentState) : AgentState :=
  { s with retrieved_docs := search r s.question 3 }

/-- Model of `planner_node` (lines 62-71): initialize `error_count` to 0 when
the key is absent; otherwise a pass-through. -/
def planner_node (s : AgentState) : AgentState :=
  match s.error_count with
  | Option.none => { s with error_count := some 0 }
  | some _ => s

/-- The fixed dialect guidance of `sql_gen_node` (line 80). -/
def baseConstraints : String :=
  "Use SQLite syntax. Table names with spaces use [brackets]. Join tables appropriately. For date functions, use strftime (e.g., strftime(\x27%Y\x27, OrderDate) for year)."

/-- The constraints string of `sql_gen_node` (lines 80-86): the dialect
guidance, plus the previous failing query and its error appended when the
current SQL result carries an error. -/
def sqlGenConstraints (s : AgentState) : String :=
  match s.sql_result with
  | some r =>
    if r.error ≠ "" then
      baseConstraints ++ "\n\nPrevious query failed:\nQuery: " ++ s.sql_query ++
        "\nError: " ++ r.error ++ "\nPlease fix the error and generate a corrected query."
    else baseConstraints
  | Option.none => baseConstraints

/-- The fence-stripping post-processing of `sql_gen_node` (lines 95-103). -/
def stripSqlFences (raw : String) : String :=
  let s := pyStrip raw
  let s := if s.startsWith "```sql" then s.drop 6 else s
  let s := if s.startsWith "```" then s.drop 3 else s
  let s := if s.endsWith "```" then s.dropRight 3 else s
  pyStrip s

/-- Model of `sql_gen_node` (lines 74-112): the generator is called with the
question, schema and constraints; the oracle `gen` maps the constraints
string (the only input that varies across repair attempts) to the completion
outcome.  The node's own `except` arm is unreachable in the model since
`get_schema`, `forward` and the string operations are total. -/
def sql_gen_node (gen : String → PredictOutcome) (s : AgentState) : AgentState :=
  let raw := SQLGeneratorModule.forward (gen (sqlGenConstraints s))
  { s with sql_query := stripSqlFences raw }

/-- Model of `executor_node` (lines 115-125): execute, store the result, and
increment the error count when the result carries an error. -/
def executor_node (o : DBOutcome) (s : AgentState) : AgentState :=
  let result := execute_query o
  let s1 := { s with sql_result := some result }
  if result.error ≠ "" then
    { s1 with error_count := some (s1.error_count.getD 0 + 1) }
  else s1

/-- The fixed table list used for citation matching (line 168). -/
def northwindTables : List String :=
  ["Orders", "Order Details", "Products", "Customers"]

/-- Serialized SQL data handed to the synthesizer (lines 132-140): the error
text when the query failed, else a rendering of columns and rows (the model
keeps the fields verbatim; the claims never inspect this string). -/
def sqlDataString (r : Option SqlResult) : String :=
  match r with
  | Option.none => ""
  | some r =>
    if r.error ≠ "" then "SQL Error: " ++ r.error
    else "columns: " ++ String.intercalate ", " r.columns ++
      " rows: " ++ String.intercalate "; " (r.rows.map (String.intercalate ", "))

/-- Model of `synthesizer_node` (lines 128-190): synthesize the answer,
collect citations (document identifiers, plus table names occurring in the
SQL text when the execution did not error, deduplicated — Python's
`list(set(...))` has no defined order; the model uses first-occurrence
order), and set the confidence by the fixed three-way heuristic.  The node's
`except` arm (confidence 0.1) is unreachable in the model: the module's
`forward` is total and the serialization is total. -/
def synthesizer_node (o : String → SynthOutcome) (s : AgentState) : AgentState :=
  let res := SynthesizerModule.forward (o (sqlDataString s.sql_result))
  let citations :=
    (s.retrieved_docs.map (·.doc_id)) ++
      (if s.sql_query ≠ "" ∧ ¬sqlResultErrored s then
        (northwindTables.filter (fun t => containsStr s.sql_query t)).map
          (fun t => "Table: " ++ t)
      else [])
  { s with
    final_answer := res.1
    explanation := res.2
    citations := citations.eraseDups
    confidence :=
      if sqlResultErrored s then mkRat 3 10
      else if s.retrieved_docs ≠ [] then mkRat 9 10
      else mkRat 7 10 }

/-! ### Workflow graph (lines 193-289): nodes, branch functions and the
nondeterministic step relation.  Every oracle response (completion outcomes,
database outcomes) is universally quantified in the step constructors, so
the theorems hold for every behaviour of the external collaborators. -/

/-- The graph's nodes, plus the terminal `END`. -/
inductive Node where
  | router
  | retrieval
  | planner
  | sqlGen
  | executor
  | synthesizer
  | terminal
deriving DecidableEq

/-- A configuration: current node and agent state. -/
abbrev Config := Node × AgentState

/-- Model of `route_after_router` (lines 194-203). -/
def route_after_router (s : AgentState) : Node :=
  let route := s.route.getD "hybrid"
  if route = "rag" then .retrieval
  else if route = "sql" then .planner
  else .retrieval

/-- Model of `route_after_retrieval` (lines 206-213). -/
def route_after_retrieval (s : AgentState) : Node :=
  let route := s.route.getD "hybrid"
  if route = "sql" ∨ route = "hybrid" then .planner else .synthesizer

/-- Model of `route_after_executor` (lines 216-226): retry SQL generation on
an error while the error count is below 2, else proceed to synthesis. -/
def route_after_executor (s : AgentState) : Node :=
  if sqlResultErrored s ∧ s.error_count.getD 0 < 2 then .sqlGen else .synthesizer

/-- One step of the compiled workflow graph, for a fixed retriever `r`.
Each constructor runs one node on the current state and moves along the
(conditional) edge the graph wires from that node. -/
inductive Step (r : LocalRetriever) : Config → Config → Prop
  | router (o : PredictOutcome) (s : AgentState) :
      Step r (.router, s)
        (route_after_router (router_node (.ok (RouterModule.forward o)) s),
          router_node (.ok (RouterModule.forward o)) s)
  | retrieval (s : AgentState) :
      Step r (.retrieval, s)
        (route_after_retrieval (retrieval_node r s), retrieval_node r s)
  | planner (s : AgentState) :
      Step r (.planner, s) (.sqlGen, planner_node s)
  | sqlGen (gen : String → PredictOutcome) (s : AgentState) :
      Step r (.sqlGen, s) (.executor, sql_gen_node gen s)
  | executor (o : DBOutcome) (s : AgentState) :
      Step r (.executor, s)
        (route_after_executor (executor_node o s), executor_node o s)
  | synthesizer (o : String → SynthOutcome) (s : AgentState) :
      Step r (.synthesizer, s) (.terminal, synthesizer_node o s)

/-- Reachability from the initial configuration of one request. -/
def Reachable (r : LocalRetriever) (question format_hint : String) (c : Config) : Prop :=
  Relation.ReflTransGen (Step r) (.router, initialState question format_hint) c

/-! ### Proof infrastructure for the repair-loop bound: a state invariant, a
potential counting the SQL attempts that can still happen, and a decreasing
measure for termination. -/

/-- Number of configurations of a trace that sit at the executor node — i.e.
the number of SQL generation-execution attempts the trace performs (each
executor configuration is entered from exactly one `sql_gen_node` run). -/
def countExec : List Config → ℕ
  | [] => 0
  | c :: l => (if c.1 = Node.executor then 1 else 0) + countExec l

/-- Reachability invariant on error counts: zero before the SQL stage, at
most one when (re-)entering generation or execution. -/
def Inv (c : Config) : Prop :=
  match c.1 with
  | .router | .retrieval | .planner => c.2.error_count.getD 0 = 0
  | .sqlGen | .executor => c.2.error_count.getD 0 ≤ 1
  | _ => True

/-- Upper bound on the number of executor configurations a trace can still
visit from `c` (the executor case counts the configuration itself). -/
def execPotential (c : Config) : ℕ :=
  match c.1 with
  | .router | .retrieval | .planner => 2
  | .sqlGen | .executor => 2 - min (c.2.error_count.getD 0) 2
  | _ => 0

/-- A measure that strictly decreases along every step (under `Inv`). -/
def stepMeasure (c : Config) : ℕ :=
  match c.1 with
  | .router => 8
  | .retrieval => 7
  | .planner => 6
  | .sqlGen => 5 - 2 * min (c.2.error_count.getD 0) 1
  | .executor => 4 - 2 * min (c.2.error_count.getD 0) 1
  | .synthesizer => 1
  | .terminal => 0

/-! ### Concrete oracles and states used by the counterexample trace (a
request routed to `sql` whose two executions both fail) and by witnesses. -/

/-- A generator oracle that always returns the same completion. -/
def cxGen : String → PredictOutcome := fun _ => .ok true "SELECT x FROM Orders"

/-- A database outcome that always fails. -/
def cxDB : DBOutcome := .exn "no such column: x"

/-- A synthesizer oracle whose completion call fails. -/
def cxSynth : String → SynthOutcome := fun _ => .exn "synthesis failed"

/-- A retriever with no documents (the trace never retrieves). -/
def cxRetriever : LocalRetriever := ⟨[], Option.none⟩

def cxS0 : AgentState := initialState "How many orders were placed in 1997?" "int"

def cxS1 : AgentState := router_node (.ok (RouterModule.forward (.ok true "sql"))) cxS0

def cxS2 : AgentState := planner_node cxS1

def cxS3 : AgentState := sql_gen_node cxGen cxS2

def cxS4 : AgentState := executor_node cxDB cxS3

def cxS5 : AgentState := sql_gen_node cxGen cxS4

def cxS6 : AgentState := executor_node cxDB cxS5

def cxS7 : AgentState := synthesizer_node cxSynth cxS6

/-- The full trace of the counterexample request: both executions fail, and
the workflow is at the synthesizer after two (not three) SQL attempts. -/
def cxTrace : List Config :=
  [(.router, cxS0), (.planner, cxS1), (.sqlGen, cxS2), (.executor, cxS3),
   (.sqlGen, cxS4), (.executor, cxS5), (.synthesizer, cxS6), (.terminal, cxS7)]

/-- A one-chunk retriever with a concrete scorer, for witnesses. -/
def wRetriever : LocalRetriever :=
  ⟨[⟨"intro.md::chunk_0", "Welcome to the retail analytics docs."⟩],
    some fun _ => [0]⟩

/-- A second retriever with the same corpus and scorer (two runs over an
identical unchanged corpus). -/
def wRetriever2 : LocalRetriever :=
  ⟨[⟨"intro.md::chunk_0", "Welcome to the retail analytics docs."⟩],
    some fun _ => [0]⟩

/-! States of a concrete `rag`-routed request, used as reachability
witnesses: router chooses `rag`, retrieval returns no documents, the
synthesizer terminates the workflow. -/

def w2S0 : AgentState := initialState "What is the refund policy?" "string"

def w2S1 : AgentState := router_node (.ok (RouterModule.forward (.ok true "rag"))) w2S0

def w2S2 : AgentState := retrieval_node cxRetriever w2S1

def w2S3 : AgentState := synthesizer_node cxSynth w2S2

/-! ## Theorems -/

/-- C3: for every SQL string (i.e. for every outcome of the database round
trip it can provoke), `execute_query` never raises (it is total) and returns
a `{columns, rows, error}` record; on success the error is empty and
columns/rows reflect the result set — both empty when the statement has no
result set (`cursor.description` is `None`); on an execution exception the
error holds the message and columns and rows are both empty. -/
theorem execute_query_contract (o : DBOutcome) :
    (o = .ok Option.none → execute_query o = { columns := [], rows := [], error := "" }) ∧
    (∀ cols rows, o = .ok (some (cols, rows)) →
      execute_query o = { columns := cols, rows := rows, error := "" }) ∧
    (∀ m, o = .exn m → execute_query o = { columns := [], rows := [], error := m }) := by
  refine ⟨fun h => ?_, fun cols rows h => ?_, fun m h => ?_⟩ <;> subst h <;> rfl

/-- Witness for C3: a failing execution at a concrete message. -/
theorem execute_query_contract_witness :
    execute_query (.exn "no such table: Foo") =
      { columns := [], rows := [], error := "no such table: Foo" } :=
  (execute_query_contract (.exn "no such table: Foo")).2.2 "no such table: Foo" rfl

/-- C6: for every completion behaviour, the route the router node writes is
one of `"rag"`, `"sql"`, `"hybrid"`; the raw output is lower-cased and
stripped, and anything outside the three tokens — including a completion
failure, modelled both by the module-level fallback (`PredictOutcome.exn`)
and by the node-level `except` arm (`Except.error`) — maps to `"hybrid"`.
The node is total, so the router never fails outward. -/
theorem router_output_valid (o : PredictOutcome) (fwd : Except String String)
    (s : AgentState) :
    ((router_node (.ok (RouterModule.forward o)) s).route = some "rag" ∨
      (router_node (.ok (RouterModule.forward o)) s).route = some "sql" ∨
      (router_node (.ok (RouterModule.forward o)) s).route = some "hybrid") ∧
    (∀ t, fwd = .ok t →
      ¬(pyStrip (lowerStr t) = "rag" ∨ pyStrip (lowerStr t) = "sql" ∨
          pyStrip (lowerStr t) = "hybrid") →
      (router_node fwd s).route = some "hybrid") ∧
    (∀ m, fwd = .error m → (router_node fwd s).route = some "hybrid") := by
  refine ⟨?_, fun t ht hnot => ?_, fun m hm => ?_⟩
  · have hthis : (router_node (.ok (RouterModule.forward o)) s).route =
        some (if pyStrip (lowerStr (RouterModule.forward o)) = "rag" ∨
            pyStrip (lowerStr (RouterModule.forward o)) = "sql" ∨
            pyStrip (lowerStr (RouterModule.forward o)) = "hybrid"
          then pyStrip (lowerStr (RouterModule.forward o)) else "hybrid") := rfl
    by_cases h : pyStrip (lowerStr (RouterModule.forward o)) = "rag" ∨
        pyStrip (lowerStr (RouterModule.forward o)) = "sql" ∨
        pyStrip (lowerStr (RouterModule.forward o)) = "hybrid"
    · rw [hthis, if_pos h]
      rcases h with h | h | h
      · exact Or.inl (by rw [h])
      · exact Or.inr (Or.inl (by rw [h]))
      · exact Or.inr (Or.inr (by rw [h]))
    · rw [hthis, if_neg h]
      exact Or.inr (Or.inr rfl)
  · subst ht
    have hthis : (router_node (.ok t) s).route =
        some (if pyStrip (lowerStr t) = "rag" ∨ pyStrip (lowerStr t) = "sql" ∨
            pyStrip (lowerStr t) = "hybrid"
          then pyStrip (lowerStr t) else "hybrid") := rfl
    rw [hthis, if_neg hnot]
  · subst hm
    rfl

/-- Witness for C6: an exception in the node maps to hybrid. -/
theorem router_output_valid_witness :
    (router_node (Except.error "timeout") (initialState "q" "int")).route =
      some "hybrid" :=
  (router_output_valid (.exn "t") (Except.error "timeout")
    (initialState "q" "int")).2.2 "timeout" rfl

/-- C7: the coercion round-trips of the spec's representative values: hint
`"int"` on `"The answer is 42 orders"` gives the integer 42; hint `"float"`
on `"3.14 is the AOV"` gives exactly 3.14; hint `"list"` on `"[1, 2, 3]"`
gives the sequence [1, 2, 3]; and the malformed list text `"a, b, c"` gives
the strings ["a", "b", "c"]. -/
theorem coercion_round_trip :
    parse_final_answer "The answer is 42 orders" "int" = .int 42 ∧
    parse_final_answer "3.14 is the AOV" "float" = .float (.finite (mkRat 157 50)) ∧
    (mkRat 157 50 : ℚ) = 3.14 ∧
    parse_final_answer "[1, 2, 3]" "list" = .list [.int 1, .int 2, .int 3] ∧
    parse_final_answer "a, b, c" "list" = .list [.str "a", .str "b", .str "c"] :=
  ⟨rfl, rfl, by norm_num [Rat.mkRat_eq_div], rfl, rfl⟩

/-- C8: search is deterministic — two runs over an identical query and an
identical unchanged corpus/index return identical results in identical
order.  In this pure embedding the result depends on nothing but the
retriever's fields and the arguments, so determinism is definitional. -/
theorem search_deterministic (r₁ r₂ : LocalRetriever) (q : String) (k : ℕ)
    (hc : r₁.chunks = r₂.chunks) (hb : r₁.bm25 = r₂.bm25) :
    search r₁ q k = search r₂ q k := by
  cases r₁
  cases r₂
  cases hc
  cases hb
  rfl

/-- Witness for C8: two concrete identically-built retrievers. -/
theorem search_deterministic_witness :
    search wRetriever "refund policy" 3 = search wRetriever2 "refund policy" 3 :=
  search_deterministic wRetriever wRetriever2 "refund policy" 3 rfl rfl

/-! ### Lemmas about the descending stable sort of `search` -/

/-- A two-element sublist of a duplicate-free list appears in index order. -/
theorem indexOf_lt_of_pair_sublist {α : Type} [DecidableEq α] :
    ∀ {l : List α} {x y : α}, l.Nodup → List.Sublist [x, y] l →
      l.indexOf x < l.indexOf y := by
  intro l
  induction l with
  | nil => intro x y _ h; simp at h
  | cons c t ih =>
    intro x y hnd h
    rcases List.nodup_cons.mp hnd with ⟨hct, hndt⟩
    cases h with
    | cons _ h' =>
      have hx : x ∈ t := h'.subset (by simp)
      have hy : y ∈ t := h'.subset (by simp)
      have hxc : x ≠ c := fun e => hct (e ▸ hx)
      have hyc : y ≠ c := fun e => hct (e ▸ hy)
      rw [List.indexOf_cons_ne t (Ne.symm hxc), List.indexOf_cons_ne t (Ne.symm hyc)]
      exact Nat.succ_lt_succ (ih hndt h')
    | cons₂ _ h' =>
      have hy : y ∈ t := List.singleton_sublist.mp h'
      have hyc : y ≠ c := fun e => hct (e ▸ hy)
      rw [List.indexOf_cons_self, List.indexOf_cons_ne t (Ne.symm hyc)]
      exact Nat.succ_pos _

/-- An increasing pair below `n` is a sublist of `range n`. -/
theorem pair_sublist_range {i j n : ℕ} (hij : i < j) (hjn : j < n) :
    List.Sublist [i, j] (List.range n) := by
  have h1 : List.Sublist [i] (List.range j) :=
    List.singleton_sublist.mpr (List.mem_range.mpr hij)
  have h2 : List.Sublist ([i] ++ [j]) (List.range j ++ [j]) :=
    h1.append (List.Sublist.refl [j])
  have h3 : List.range j ++ [j] = List.range (j + 1) := (List.range_succ j).symm
  exact List.Sublist.trans (h3 ▸ h2) (List.range_sublist.mpr hjn)

/-- The sorted index list is a permutation of the score indices. -/
theorem searchIdx_perm (scores : List ℚ) :
    (searchIdx scores).Perm (List.range scores.length) :=
  List.perm_insertionSort _ _

/-- The sorted index list has no duplicates. -/
theorem searchIdx_nodup (scores : List ℚ) : (searchIdx scores).Nodup :=
  ((searchIdx_perm scores).nodup_iff).mpr (List.nodup_range scores.length)

/-- The sorted index list is sorted by non-increasing score. -/
theorem searchIdx_sorted (scores : List ℚ) :
    List.Pairwise (scoreGe scores) (searchIdx scores) := by
  haveI : IsTotal ℕ (scoreGe scores) :=
    ⟨fun a b => le_total (scores.getD b 0) (scores.getD a 0)⟩
  haveI : IsTrans ℕ (scoreGe scores) :=
    ⟨fun _ _ _ hab hbc => le_trans hbc hab⟩
  exact List.sorted_insertionSort (scoreGe scores) (List.range scores.length)

/-- Stability of the sort: a tied pair in original order stays a sublist. -/
theorem searchIdx_stable (scores : List ℚ) {i j : ℕ} (hij : i < j)
    (hjn : j < scores.length) (heq : scores.getD i 0 = scores.getD j 0) :
    List.Sublist [i, j] (searchIdx scores) := by
  apply List.sublist_insertionSort
  · refine List.Pairwise.cons ?_ (List.pairwise_singleton _ _)
    intro y hy
    have hyj : y = j := by simpa using hy
    subst hyj
    exact le_of_eq heq.symm
  · exact pair_sublist_range hij hjn

/-- The sorted index list is ordered by strictly descending score with ties
broken by ascending original index. -/
theorem searchIdx_pairwise (scores : List ℚ) :
    List.Pairwise (fun i j => scores.getD j 0 < scores.getD i 0 ∨
      (scores.getD i 0 = scores.getD j 0 ∧ i < j)) (searchIdx scores) := by
  rw [List.pairwise_iff_get]
  intro p q hpq
  have hsorted : scores.getD ((searchIdx scores).get q) 0 ≤
      scores.getD ((searchIdx scores).get p) 0 :=
    List.pairwise_iff_get.mp (searchIdx_sorted scores) p q hpq
  rcases hsorted.lt_or_eq with hlt | heq
  · exact Or.inl hlt
  · refine Or.inr ⟨heq.symm, ?_⟩
    by_contra hnot
    push_neg at hnot
    have hnd := searchIdx_nodup scores
    have hne : (searchIdx scores).get p ≠ (searchIdx scores).get q := by
      intro he
      exact absurd ((List.Nodup.get_inj_iff hnd).mp he) (Fin.ne_of_lt hpq)
    have hqp : (searchIdx scores).get q < (searchIdx scores).get p :=
      lt_of_le_of_ne hnot fun e => hne e.symm
    have hplt : (searchIdx scores).get p < scores.length :=
      List.mem_range.mp ((searchIdx_perm scores).subset (List.get_mem _ _ _))
    have hsub : List.Sublist [(searchIdx scores).get q, (searchIdx scores).get p]
        (searchIdx scores) :=
      searchIdx_stable scores hqp hplt heq
    have hidx := indexOf_lt_of_pair_sublist hnd hsub
    rw [List.get_eq_getElem, List.get_eq_getElem, List.indexOf_getElem hnd,
      List.indexOf_getElem hnd] at hidx
    exact absurd hidx (Nat.lt_asymm hpq)

/-- C4: for every corpus, index and query, `search(query, k)` returns at
most `k` chunks; it returns the empty sequence when the index is absent or
the corpus empty (and in particular never fails — it is total); and when the
index is present the result is the image of the top-`k` index prefix, which
is ordered by non-increasing ranking score with ties broken by ascending
original chunk order (the stable descending sort of the source). -/
theorem search_contract (r : LocalRetriever) (q : String) (k : ℕ) :
    (search r q k).length ≤ k ∧
    (r.bm25 = Option.none → search r q k = []) ∧
    (r.chunks = [] → search r q k = []) ∧
    (∀ f, r.bm25 = some f → r.chunks ≠ [] →
      search r q k =
        ((searchIdx (f (tokenize q))).take k).map (fun i => r.chunks.getD i default) ∧
      List.Pairwise
        (fun i j => (f (tokenize q)).getD j 0 < (f (tokenize q)).getD i 0 ∨
          ((f (tokenize q)).getD i 0 = (f (tokenize q)).getD j 0 ∧ i < j))
        ((searchIdx (f (tokenize q))).take k)) := by
  refine ⟨?_, ?_, ?_, ?_⟩
  · unfold search
    cases hb : r.bm25 with
    | none => simp
    | some f =>
      dsimp only
      by_cases hc : r.chunks.isEmpty = true
      · rw [if_pos hc]
        simp
      · rw [if_neg hc]
        simp only [List.length_map, List.length_take]
        exact min_le_left _ _
  · intro hb; unfold search; rw [hb]
  · intro hc; unfold search
    cases hb : r.bm25 with
    | none => rfl
    | some f => simp [hc]
  · intro f hb hne
    constructor
    · unfold search
      rw [hb]
      have : r.chunks.isEmpty = false := by
        cases hcc : r.chunks with
        | nil => exact absurd hcc hne
        | cons a t => rfl
      rw [this]
      simp
    · exact (searchIdx_pairwise (f (tokenize q))).sublist (List.take_sublist _ _)

/-- Witness for C4: the one-chunk retriever at `k = 3`. -/
theorem search_contract_witness :
    search wRetriever "refunds" 3 = [⟨"intro.md::chunk_0",
      "Welcome to the retail analytics docs."⟩] ∧
    (search wRetriever "refunds" 3).length ≤ 3 := by
  refine ⟨?_, (search_contract wRetriever "refunds" 3).1⟩
  have h := ((search_contract wRetriever "refunds" 3).2.2.2 (fun _ => [0]) rfl
    (by simp [wRetriever])).1
  rw [h]
  rfl

/-- C10: whenever the index exists and the corpus is non-empty, `search`
returns exactly `min k n` results for every query (`n` the number of indexed
chunks): zero-scoring chunks still fill the `k` slots. -/
theorem search_returns_min_k (r : LocalRetriever) (q : String) (k : ℕ)
    (f : List String → List ℚ) (hb : r.bm25 = some f) (hne : r.chunks ≠ [])
    (hwf : (f (tokenize q)).length = r.chunks.length) :
    (search r q k).length = min k r.chunks.length := by
  unfold search
  rw [hb]
  have hc : r.chunks.isEmpty = false := by
    cases hcc : r.chunks with
    | nil => exact absurd hcc hne
    | cons a t => rfl
  rw [hc]
  simp only [Bool.false_eq_true, if_false, List.length_map, List.length_take]
  unfold searchIdx
  rw [List.length_insertionSort, List.length_range, hwf]

/-- Witness for C10: one chunk, `k = 3`, an unrelated query still returns
`min 3 1 = 1` chunk. -/
theorem search_returns_min_k_witness :
    (search wRetriever "quantum entanglement" 3).length = min 3 1 := by
  have h := search_returns_min_k wRetriever "quantum entanglement" 3
    (fun _ => [0]) rfl (by simp [wRetriever]) rfl
  simpa [wRetriever] using h

/-! ### Lemmas about the coercion cascade -/

/-- Stripping yields a sublist of the original characters. -/
theorem stripChars_sublist (l : List Char) : List.Sublist (stripChars l) l := by
  unfold stripChars
  have h2 : List.Sublist
      ((l.dropWhile Char.isWhitespace).reverse.dropWhile Char.isWhitespace)
      (l.dropWhile Char.isWhitespace).reverse := List.dropWhile_sublist _
  have h3 := h2.reverse
  rw [List.reverse_reverse] at h3
  exact h3.trans (List.dropWhile_sublist _)

/-- The leading digit run of a digit-free list is empty. -/
theorem takeWhile_digits_nil (l : List Char)
    (h : ∀ c ∈ l, isDigitChar c = false) : l.takeWhile isDigitChar = [] := by
  cases l with
  | nil => rfl
  | cons a r => simp [List.takeWhile_cons, h a (List.mem_cons_self a r)]

/-- Dropping the leading digit run of a digit-free list is the identity. -/
theorem dropWhile_digits_id (l : List Char)
    (h : ∀ c ∈ l, isDigitChar c = false) : l.dropWhile isDigitChar = l := by
  cases l with
  | nil => rfl
  | cons a r => simp [List.dropWhile_cons, h a (List.mem_cons_self a r)]

/-- When the integer regex finds no match, the string holds no digit. -/
theorem noDigit_of_findIntSub_none :
    ∀ cs : List Char, findIntSub cs = Option.none →
      ∀ c ∈ cs, isDigitChar c = false := by
  intro cs
  induction cs with
  | nil => intro _ c hc; simp at hc
  | cons a tl ih =>
    intro h c hc
    unfold findIntSub at h
    by_cases hd : isDigitChar a = true
    · rw [if_pos hd] at h
      exact absurd h (by simp)
    · rw [if_neg hd] at h
      by_cases hm : a = '-'
      · rw [if_pos hm] at h
        cases tl with
        | nil =>
          rcases List.mem_cons.mp hc with rfl | hc2
          · simpa using hd
          · simp at hc2
        | cons d tl2 =>
          dsimp only at h
          by_cases hdd : isDigitChar d = true
          · rw [if_pos hdd] at h
            exact absurd h (by simp)
          · rw [if_neg hdd] at h
            rcases List.mem_cons.mp hc with rfl | hc2
            · simpa using hd
            · exact ih h c hc2
      · rw [if_neg hm] at h
        rcases List.mem_cons.mp hc with rfl | hc2
        · simpa using hd
        · exact ih h c hc2

/-- When the decimal regex finds no match, the string holds no digit. -/
theorem noDigit_of_findFloatSub_none :
    ∀ cs : List Char, findFloatSub cs = Option.none →
      ∀ c ∈ cs, isDigitChar c = false := by
  intro cs
  induction cs with
  | nil => intro _ c hc; simp at hc
  | cons a tl ih =>
    intro h c hc
    unfold findFloatSub at h
    by_cases hd : isDigitChar a = true
    · rw [if_pos hd] at h
      exact absurd h (by simp)
    · rw [if_neg hd] at h
      by_cases hm : a = '-'
      · rw [if_pos hm] at h
        cases tl with
        | nil =>
          rcases List.mem_cons.mp hc with rfl | hc2
          · simpa using hd
          · simp at hc2
        | cons d tl2 =>
          dsimp only at h
          by_cases hdd : isDigitChar d = true
          · rw [if_pos hdd] at h
            exact absurd h (by simp)
          · rw [if_neg hdd] at h
            rcases List.mem_cons.mp hc with rfl | hc2
            · simpa using hd
            · exact ih h c hc2
      · rw [if_neg hm] at h
        rcases List.mem_cons.mp hc with rfl | hc2
        · simpa using hd
        · exact ih h c hc2

/-- Python `int()` fails on every digit-free string, so the `int(answer_str)`
fallback of the int branch can never produce a value when the regex found no
integer substring. -/
theorem pyIntOfChars_eq_none (cs : List Char)
    (h : ∀ c ∈ cs, isDigitChar c = false) : pyIntOfChars cs = Option.none := by
  have hsub : ∀ c ∈ stripChars cs, isDigitChar c = false :=
    fun c hc => h c ((stripChars_sublist cs).subset hc)
  cases hm : stripChars cs with
  | nil => simp [pyIntOfChars, hm]
  | cons a r =>
    have har : ∀ c ∈ a :: r, isDigitChar c = false := hm ▸ hsub
    have htail : ∀ c ∈ r, isDigitChar c = false :=
      fun c hc => har c (List.mem_cons_of_mem a hc)
    by_cases ha1 : a = '-'
    · subst ha1
      cases hr : r with
      | nil => simp [pyIntOfChars, hm, hr]
      | cons d r2 =>
        have hd : isDigitChar d = false := htail d (hr ▸ List.mem_cons_self d r2)
        simp [pyIntOfChars, hm, hr, hd]
    · by_cases ha2 : a = '+'
      · subst ha2
        cases hr : r with
        | nil => simp [pyIntOfChars, hm, hr]
        | cons d r2 =>
          have hd : isDigitChar d = false := htail d (hr ▸ List.mem_cons_self d r2)
          simp [pyIntOfChars, hm, hr, hd]
      · have hd : isDigitChar a = false := har a (List.mem_cons_self a r)
        simp [pyIntOfChars, hm, ha1, ha2, hd]

/-- The decimal-form parser fails on every digit-free string. -/
theorem parseDecimalChars_eq_none (l : List Char)
    (h : ∀ c ∈ l, isDigitChar c = false) : parseDecimalChars l = Option.none := by
  have hip := takeWhile_digits_nil l h
  have hr1 := dropWhile_digits_id l h
  have htail : ∀ c ∈ l.tail, isDigitChar c = false :=
    fun c hc => h c ((List.tail_sublist l).subset hc)
  have hiptail := takeWhile_digits_nil l.tail htail
  unfold parseDecimalChars
  rw [hip, hr1]
  by_cases hdot : l.head? = some '.'
  · simp [hdot, hiptail]
  · simp [hdot]

/-- Auxiliary for `pyFloatOfChars_special`: the special/decimal if-chain on
a digit-free sign-stripped tail can only give a special value. -/
theorem pyFloatSpecialAux (sign : Bool) (l : List Char)
    (hl : ∀ c ∈ l, isDigitChar c = false) :
    ∀ f,
      (if l.map Char.toLower = "inf".data ∨ l.map Char.toLower = "infinity".data
        then some (if sign = true then PyFloat.negInf else PyFloat.posInf)
      else if l.map Char.toLower = "nan".data then some PyFloat.nan
      else
        match parseDecimalChars l with
        | some q => some (PyFloat.finite (if sign = true then ratNeg q else q))
        | Option.none => Option.none) = some f →
      f = .posInf ∨ f = .negInf ∨ f = .nan := by
  intro f hf
  by_cases hinf : l.map Char.toLower = "inf".data ∨
      l.map Char.toLower = "infinity".data
  · rw [if_pos hinf] at hf
    cases sign
    · simp only [Bool.false_eq_true, if_false, Option.some.injEq] at hf
      rw [← hf]
      exact Or.inl rfl
    · simp only [if_true] at hf
      rw [← Option.some_inj.mp hf]
      exact Or.inr (Or.inl rfl)
  · rw [if_neg hinf] at hf
    by_cases hnan : l.map Char.toLower = "nan".data
    · rw [if_pos hnan] at hf
      rw [← Option.some_inj.mp hf]
      exact Or.inr (Or.inr rfl)
    · rw [if_neg hnan] at hf
      rw [parseDecimalChars_eq_none l hl] at hf
      exact absurd hf (by simp)

/-- On a digit-free string, a successful Python `float()` can only be one of
the special values `inf`, `-inf`, `nan`. -/
theorem pyFloatOfChars_special (cs : List Char)
    (h : ∀ c ∈ cs, isDigitChar c = false) :
    ∀ f, pyFloatOfChars cs = some f →
      f = .posInf ∨ f = .negInf ∨ f = .nan := by
  have hsub : ∀ c ∈ stripChars cs, isDigitChar c = false :=
    fun c hc => h c ((stripChars_sublist cs).subset hc)
  intro f hf
  cases hm : stripChars cs with
  | nil =>
    refine pyFloatSpecialAux false [] (by intro c hc; simp at hc) f ?_
    rw [hm] at hsub
    simpa [pyFloatOfChars, hm] using hf
  | cons a r =>
    have har : ∀ c ∈ a :: r, isDigitChar c = false := hm ▸ hsub
    have htail : ∀ c ∈ r, isDigitChar c = false :=
      fun c hc => har c (List.mem_cons_of_mem a hc)
    by_cases ha1 : a = '-'
    · subst ha1
      exact pyFloatSpecialAux true r htail f
        (by simpa [pyFloatOfChars, hm] using hf)
    · by_cases ha2 : a = '+'
      · subst ha2
        exact pyFloatSpecialAux false r htail f
          (by simpa [pyFloatOfChars, hm] using hf)
      · exact pyFloatSpecialAux false (a :: r) har f
          (by simpa [pyFloatOfChars, hm, ha1, ha2] using hf)

/-- C5 counterexample: the cascade as claimed fails on the code.  For hint
`"float"`, the input `"inf"` has no signed decimal substring, yet the code
returns `float("inf")` = positive infinity, not `0.0`.  For a list hint, the
input `"[1,]"` starts with `[`, so the code goes from the failed JSON parse
directly to the comma split, returning `["[1", "]"]` — the permissive
literal parse, which the claim says is attempted next and which succeeds
here with `[1]`, is skipped. -/
theorem coercion_cascade_counterexample :
    parse_final_answer "inf" "float" = .float .posInf ∧
    PyValue.float .posInf ≠ PyValue.float (.finite 0) ∧
    parse_final_answer "[1,]" "list" = .list [.str "[1", .str "]"] ∧
    literalEval "[1,]".data = some (.list [.int 1]) ∧
    PyValue.list [.str "[1", .str "]"] ≠ PyValue.list [.int 1] :=
  ⟨rfl, by simp, rfl, rfl, by simp⟩

/-- C5 (amended): the coercion cascade never raises (it is total by
construction), and behaves as follows.  Hint `"int"`: the first signed
integer substring, else `0` — the code's `int(answer_str)` fallback provably
never produces a value, since a digit-free string is rejected by `int()`.
Hint `"float"`: the first signed decimal substring; in its absence the code
falls back to Python `float()` of the whole string, which can still accept
the special digit-free forms `inf`/`infinity`/`nan` (sign-prefixed,
case-insensitive) — only when that also fails is `0.0` returned.  A hint
containing `"list"` (resp. `"dict"`): when the stripped string starts with
`[` (resp. the left brace) a JSON parse is attempted, otherwise a permissive
literal parse — the stage not chosen is skipped, not tried in sequence; on
failure the list branch comma-splits (single-element list when no comma) and
the dict branch wraps the string as `{"value": s}`.  Any other hint: the
stripped string unchanged. -/
theorem coercion_cascade_amended (s hint : String) :
    (lowerStr hint = "int" →
      parse_final_answer s hint =
        (match findIntSub (stripChars s.data) with
          | some m => .int (intSubVal m)
          | Option.none => .int 0)) ∧
    (lowerStr hint = "float" →
      parse_final_answer s hint =
        (match findFloatSub (stripChars s.data) with
          | some m => .float (.finite (floatSubVal m))
          | Option.none =>
            match pyFloatOfChars (stripChars s.data) with
            | some f => .float f
            | Option.none => .float (.finite 0))) ∧
    (findFloatSub (stripChars s.data) = Option.none →
      ∀ f, pyFloatOfChars (stripChars s.data) = some f →
        f = .posInf ∨ f = .negInf ∨ f = .nan) ∧
    (lowerStr hint ≠ "int" → lowerStr hint ≠ "float" →
      containsStr (lowerStr hint) "list" = true →
      parse_final_answer s hint =
        (if (stripChars s.data).head? = some '[' then
          match jsonLoads (stripChars s.data) with
          | some v => v
          | Option.none => commaSplit (stripChars s.data)
        else
          match literalEval (stripChars s.data) with
          | some v => v
          | Option.none => commaSplit (stripChars s.data))) ∧
    (lowerStr hint ≠ "int" → lowerStr hint ≠ "float" →
      containsStr (lowerStr hint) "list" = false →
      containsStr (lowerStr hint) "dict" = true →
      parse_final_answer s hint =
        (if (stripChars s.data).head? = some lbrace then
          match jsonLoads (stripChars s.data) with
          | some v => v
          | Option.none => .dict [(.str "value", .str (String.mk (stripChars s.data)))]
        else
          match literalEval (stripChars s.data) with
          | some v => v
          | Option.none => .dict [(.str "value", .str (String.mk (stripChars s.data)))])) ∧
    (lowerStr hint ≠ "int" → lowerStr hint ≠ "float" →
      containsStr (lowerStr hint) "list" = false →
      containsStr (lowerStr hint) "dict" = false →
      parse_final_answer s hint = .str (String.mk (stripChars s.data))) := by
  refine ⟨fun hi => ?_, fun hf => ?_, fun hnone f hsome => ?_,
    fun hi hf hl => ?_, fun hi hf hl hd => ?_, fun hi hf hl hd => ?_⟩
  · unfold parse_final_answer
    rw [if_pos hi]
    cases hfind : findIntSub (stripChars s.data) with
    | some m => rfl
    | none =>
      rw [pyIntOfChars_eq_none (stripChars s.data)
        (noDigit_of_findIntSub_none _ hfind)]
  · have hi : lowerStr hint ≠ "int" := by rw [hf]; decide
    unfold parse_final_answer
    rw [if_neg hi, if_pos hf]
  · exact pyFloatOfChars_special (stripChars s.data)
      (noDigit_of_findFloatSub_none _ hnone) f hsome
  · unfold parse_final_answer
    rw [if_neg hi, if_neg hf, if_pos hl]
  · unfold parse_final_answer
    rw [if_neg hi, if_neg hf, if_neg (by rw [hl]; decide), if_pos hd]
  · unfold parse_final_answer
    rw [if_neg hi, if_neg hf, if_neg (by rw [hl]; decide),
      if_neg (by rw [hd]; decide)]

/-- Witness for C5 (amended): a digit-free int-hinted answer coerces to 0
through the proven-unreachable `int()` fallback. -/
theorem coercion_cascade_amended_witness :
    parse_final_answer "no digits here" "int" = .int 0 :=
  ((coercion_cascade_amended "no digits here" "int").1 rfl).trans (by rfl)

/-! ### Lemmas about the workflow state machine -/

/-- The router's branch function only targets retrieval or the planner. -/
theorem route_after_router_mem (s : AgentState) :
    route_after_router s = .retrieval ∨ route_after_router s = .planner := by
  unfold route_after_router
  dsimp only
  split_ifs <;> simp

/-- The retrieval branch function only targets the planner or the
synthesizer. -/
theorem route_after_retrieval_mem (s : AgentState) :
    route_after_retrieval s = .planner ∨ route_after_retrieval s = .synthesizer := by
  unfold route_after_retrieval
  dsimp only
  split_ifs <;> simp

/-- The executor's branch function only targets SQL generation or the
synthesizer. -/
theorem route_after_executor_mem (s : AgentState) :
    route_after_executor s = .sqlGen ∨ route_after_executor s = .synthesizer := by
  unfold route_after_executor
  split_ifs <;> simp

/-- The executor loops back to generation exactly when the stored result
errored and the error count is below the cap. -/
theorem route_after_executor_sqlGen_iff (s : AgentState) :
    route_after_executor s = .sqlGen ↔
      sqlResultErrored s ∧ s.error_count.getD 0 < 2 := by
  unfold route_after_executor
  split_ifs with hcond <;> simp [hcond]

/-- The planner preserves the error-count value read through `getD`. -/
theorem planner_node_count (s : AgentState) :
    (planner_node s).error_count.getD 0 = s.error_count.getD 0 := by
  unfold planner_node
  cases h : s.error_count <;> simp [h]

/-- The planner does not touch the route. -/
theorem planner_node_route (s : AgentState) :
    (planner_node s).route = s.route := by
  unfold planner_node
  cases h : s.error_count <;> rfl

/-- On a failing execution the error count is exactly incremented. -/
theorem executor_node_count_err (o : DBOutcome) (s : AgentState)
    (he : (execute_query o).error ≠ "") :
    (executor_node o s).error_count = some (s.error_count.getD 0 + 1) := by
  unfold executor_node
  rw [if_pos he]

/-- On a successful execution the error count is unchanged. -/
theorem executor_node_count_ok (o : DBOutcome) (s : AgentState)
    (he : ¬(execute_query o).error ≠ "") :
    (executor_node o s).error_count = s.error_count := by
  unfold executor_node
  rw [if_neg he]

/-- The executor always stores the execution result. -/
theorem executor_node_sql_result (o : DBOutcome) (s : AgentState) :
    (executor_node o s).sql_result = some (execute_query o) := by
  unfold executor_node
  dsimp only
  split <;> rfl

/-- The errored test through a known stored result. -/
theorem sqlResultErrored_some {s : AgentState} {res : SqlResult}
    (h : s.sql_result = some res) : sqlResultErrored s ↔ res.error ≠ "" := by
  unfold sqlResultErrored
  rw [h]

/-- After the executor, the stored result errored iff the execution did. -/
theorem executor_node_errored (o : DBOutcome) (s : AgentState) :
    sqlResultErrored (executor_node o s) ↔ (execute_query o).error ≠ "" :=
  sqlResultErrored_some (executor_node_sql_result o s)

/-- The executor does not touch the route. -/
theorem executor_node_route (o : DBOutcome) (s : AgentState) :
    (executor_node o s).route = s.route := by
  unfold executor_node
  dsimp only
  split <;> rfl

/-! Field-preservation lemmas for the node functions, proved by projection
reduction (each node function writes only its own fields). -/

theorem router_node_count (fwd : Except String String) (s : AgentState) :
    (router_node fwd s).error_count = s.error_count := by
  unfold router_node
  dsimp only

theorem retrieval_node_count (r : LocalRetriever) (s : AgentState) :
    (retrieval_node r s).error_count = s.error_count := by
  unfold retrieval_node
  dsimp only

theorem retrieval_node_route (r : LocalRetriever) (s : AgentState) :
    (retrieval_node r s).route = s.route := by
  unfold retrieval_node
  dsimp only

theorem sql_gen_node_count (gen : String → PredictOutcome) (s : AgentState) :
    (sql_gen_node gen s).error_count = s.error_count := by
  unfold sql_gen_node
  dsimp only

theorem sql_gen_node_route (gen : String → PredictOutcome) (s : AgentState) :
    (sql_gen_node gen s).route = s.route := by
  unfold sql_gen_node
  dsimp only

theorem router_node_route_isSome (fwd : Except String String) (s : AgentState) :
    (router_node fwd s).route.isSome = true := by
  unfold router_node
  dsimp only
  rfl

theorem synthesizer_node_route (o : String → SynthOutcome) (s : AgentState) :
    (synthesizer_node o s).route = s.route := by
  unfold synthesizer_node
  dsimp only

theorem synthesizer_node_count (o : String → SynthOutcome) (s : AgentState) :
    (synthesizer_node o s).error_count = s.error_count := by
  unfold synthesizer_node
  dsimp only

theorem synthesizer_node_sql_result (o : String → SynthOutcome) (s : AgentState) :
    (synthesizer_node o s).sql_result = s.sql_result := by
  unfold synthesizer_node
  dsimp only

theorem synthesizer_node_docs (o : String → SynthOutcome) (s : AgentState) :
    (synthesizer_node o s).retrieved_docs = s.retrieved_docs := by
  unfold synthesizer_node
  dsimp only

/-- The synthesizer writes the confidence by the fixed three-way rule. -/
theorem synthesizer_node_confidence (o : String → SynthOutcome) (s : AgentState) :
    (synthesizer_node o s).confidence =
      if sqlResultErrored s then mkRat 3 10
      else if s.retrieved_docs ≠ [] then mkRat 9 10
      else mkRat 7 10 := by
  unfold synthesizer_node
  dsimp only

/-- No workflow node other than the router writes the route field. -/
theorem step_preserves_route {r : LocalRetriever} {c c' : Config}
    (h : Step r c c') (hne : c.1 ≠ Node.router) : c'.2.route = c.2.route := by
  cases h with
  | router o s => exact absurd rfl hne
  | retrieval s => exact retrieval_node_route r s
  | planner s => exact planner_node_route s
  | sqlGen gen s => exact sql_gen_node_route gen s
  | executor o s => exact executor_node_route o s
  | synthesizer o s => exact synthesizer_node_route o s

/-- No edge of the graph returns to the router: the route is written once. -/
theorem step_target_ne_router {r : LocalRetriever} {c c' : Config}
    (h : Step r c c') : c'.1 ≠ Node.router := by
  cases h with
  | router o s =>
    rcases route_after_router_mem (router_node (.ok (RouterModule.forward o)) s) with
      hn | hn <;> simp [hn]
  | retrieval s =>
    rcases route_after_retrieval_mem (retrieval_node r s) with hn | hn <;> simp [hn]
  | planner s => simp
  | sqlGen gen s => simp
  | executor o s =>
    rcases route_after_executor_mem (executor_node o s) with hn | hn <;> simp [hn]
  | synthesizer o s => simp

/-- Only the synthesizer's edge reaches the terminal node. -/
theorem step_into_terminal {r : LocalRetriever} {c c' : Config}
    (h : Step r c c') (ht : c'.1 = Node.terminal) :
    ∃ o, c.1 = Node.synthesizer ∧ c'.2 = synthesizer_node o c.2 := by
  cases h with
  | router o s =>
    dsimp only at ht
    rcases route_after_router_mem (router_node (.ok (RouterModule.forward o)) s) with
      hn | hn <;> rw [hn] at ht <;> simp at ht
  | retrieval s =>
    dsimp only at ht
    rcases route_after_retrieval_mem (retrieval_node r s) with hn | hn <;>
      rw [hn] at ht <;> simp at ht
  | planner s => simp at ht
  | sqlGen gen s => simp at ht
  | executor o s =>
    dsimp only at ht
    rcases route_after_executor_mem (executor_node o s) with hn | hn <;>
      rw [hn] at ht <;> simp at ht
  | synthesizer o s => exact ⟨o, rfl, rfl⟩

/-- The invariant holds at every initial configuration. -/
theorem inv_initial (q h : String) : Inv (Node.router, initialState q h) := rfl

/-- Every step preserves the invariant. -/
theorem step_inv {r : LocalRetriever} {c c' : Config} (h : Step r c c')
    (hc : Inv c) : Inv c' := by
  cases h with
  | router o s =>
    have hc0 : s.error_count.getD 0 = 0 := hc
    rcases route_after_router_mem (router_node (.ok (RouterModule.forward o)) s) with
      hn | hn <;> rw [hn]
    · show (router_node (.ok (RouterModule.forward o)) s).error_count.getD 0 = 0
      rw [router_node_count]
      exact hc0
    · show (router_node (.ok (RouterModule.forward o)) s).error_count.getD 0 = 0
      rw [router_node_count]
      exact hc0
  | retrieval s =>
    have hc0 : s.error_count.getD 0 = 0 := hc
    rcases route_after_retrieval_mem (retrieval_node r s) with hn | hn <;> rw [hn]
    · show (retrieval_node r s).error_count.getD 0 = 0
      rw [retrieval_node_count]
      exact hc0
    · trivial
  | planner s =>
    have hc0 : s.error_count.getD 0 = 0 := hc
    show (planner_node s).error_count.getD 0 ≤ 1
    rw [planner_node_count, hc0]
    exact Nat.zero_le 1
  | sqlGen gen s =>
    have hc1 : s.error_count.getD 0 ≤ 1 := hc
    show (sql_gen_node gen s).error_count.getD 0 ≤ 1
    rw [sql_gen_node_count]
    exact hc1
  | executor o s =>
    rcases route_after_executor_mem (executor_node o s) with hn | hn <;> rw [hn]
    · have hcond := (route_after_executor_sqlGen_iff (executor_node o s)).mp hn
      show (executor_node o s).error_count.getD 0 ≤ 1
      omega
    · trivial
  | synthesizer o s => trivial

/-- Every step spends the potential: the target's potential, plus one for a
step out of the executor, is bounded by the source's potential. -/
theorem step_potential {r : LocalRetriever} {c c' : Config} (h : Step r c c')
    (hc : Inv c) :
    execPotential c' + (if c.1 = Node.executor then 1 else 0) ≤ execPotential c := by
  cases h with
  | router o s =>
    rcases route_after_router_mem (router_node (.ok (RouterModule.forward o)) s) with
      hn | hn <;> rw [hn]
    · show 2 + (if Node.router = Node.executor then 1 else 0) ≤ 2
      simp
    · show 2 + (if Node.router = Node.executor then 1 else 0) ≤ 2
      simp
  | retrieval s =>
    rcases route_after_retrieval_mem (retrieval_node r s) with hn | hn <;> rw [hn]
    · show 2 + (if Node.retrieval = Node.executor then 1 else 0) ≤ 2
      simp
    · show 0 + (if Node.retrieval = Node.executor then 1 else 0) ≤ 2
      simp
  | planner s =>
    show 2 - min ((planner_node s).error_count.getD 0) 2 +
      (if Node.planner = Node.executor then 1 else 0) ≤ 2
    rw [if_neg (by decide : ¬(Node.planner = Node.executor))]
    omega
  | sqlGen gen s =>
    show 2 - min ((sql_gen_node gen s).error_count.getD 0) 2 +
      (if Node.sqlGen = Node.executor then 1 else 0) ≤
      2 - min (s.error_count.getD 0) 2
    rw [if_neg (by decide : ¬(Node.sqlGen = Node.executor)), sql_gen_node_count]
    omega
  | executor o s =>
    have hle : s.error_count.getD 0 ≤ 1 := hc
    rcases route_after_executor_mem (executor_node o s) with hn | hn <;> rw [hn]
    · have hcond := (route_after_executor_sqlGen_iff (executor_node o s)).mp hn
      have herr : (execute_query o).error ≠ "" :=
        (executor_node_errored o s).mp hcond.1
      have hcount := executor_node_count_err o s herr
      show 2 - min ((executor_node o s).error_count.getD 0) 2 +
        (if Node.executor = Node.executor then 1 else 0) ≤
        2 - min (s.error_count.getD 0) 2
      rw [if_pos rfl, hcount]
      rw [hcount] at hcond
      simp only [Option.getD_some] at hcond ⊢
      omega
    · show 0 + (if Node.executor = Node.executor then 1 else 0) ≤
        2 - min (s.error_count.getD 0) 2
      rw [if_pos rfl]
      omega
  | synthesizer o s =>
    show 0 + (if Node.synthesizer = Node.executor then 1 else 0) ≤ 0
    simp

/-- Every step strictly decreases the measure. -/
theorem step_measure {r : LocalRetriever} {c c' : Config} (h : Step r c c')
    (hc : Inv c) : stepMeasure c' < stepMeasure c := by
  cases h with
  | router o s =>
    rcases route_after_router_mem (router_node (.ok (RouterModule.forward o)) s) with
      hn | hn <;> rw [hn]
    · show 7 < 8
      omega
    · show 6 < 8
      omega
  | retrieval s =>
    rcases route_after_retrieval_mem (retrieval_node r s) with hn | hn <;> rw [hn]
    · show 6 < 7
      omega
    · show 1 < 7
      omega
  | planner s =>
    have hc0 : s.error_count.getD 0 = 0 := hc
    show 5 - 2 * min ((planner_node s).error_count.getD 0) 1 < 6
    omega
  | sqlGen gen s =>
    show 4 - 2 * min ((sql_gen_node gen s).error_count.getD 0) 1 <
      5 - 2 * min (s.error_count.getD 0) 1
    rw [sql_gen_node_count]
    omega
  | executor o s =>
    have hle : s.error_count.getD 0 ≤ 1 := hc
    rcases route_after_executor_mem (executor_node o s) with hn | hn <;> rw [hn]
    · have hcond := (route_after_executor_sqlGen_iff (executor_node o s)).mp hn
      have herr : (execute_query o).error ≠ "" :=
        (executor_node_errored o s).mp hcond.1
      have hcount := executor_node_count_err o s herr
      show 5 - 2 * min ((executor_node o s).error_count.getD 0) 1 <
        4 - 2 * min (s.error_count.getD 0) 1
      rw [hcount] at hcond ⊢
      simp only [Option.getD_some] at hcond ⊢
      omega
    · show 1 < 4 - 2 * min (s.error_count.getD 0) 1
      omega
  | synthesizer o s =>
    show 0 < 1
    omega

/-- The executor count of a one-configuration trace. -/
theorem countExec_singleton (c : Config) :
    countExec [c] = if c.1 = Node.executor then 1 else 0 := by
  simp [countExec]

/-- Along every chain from an invariant configuration, the number of
executor configurations is bounded by the potential. -/
theorem chain_countExec {r : LocalRetriever} :
    ∀ (l : List Config) (c : Config), List.Chain' (Step r) (c :: l) → Inv c →
      countExec (c :: l) ≤ execPotential c := by
  intro l
  induction l with
  | nil =>
    intro c _ hinv
    rw [countExec_singleton c]
    by_cases he : c.1 = Node.executor
    · rw [if_pos he]
      obtain ⟨n, s⟩ := c
      have hn : n = Node.executor := he
      subst hn
      have hinv1 : s.error_count.getD 0 ≤ 1 := hinv
      show 1 ≤ 2 - min (s.error_count.getD 0) 2
      omega
    · rw [if_neg he]
      exact Nat.zero_le _
  | cons c2 l2 ih =>
    intro c hch hinv
    have hstep : Step r c c2 := (List.chain'_cons.mp hch).1
    have hch2 : List.Chain' (Step r) (c2 :: l2) := (List.chain'_cons.mp hch).2
    have hinv2 : Inv c2 := step_inv hstep hinv
    have hpot := step_potential hstep hinv
    have hih := ih c2 hch2 hinv2
    show (if c.1 = Node.executor then 1 else 0) + countExec (c2 :: l2) ≤ _
    generalize (if c.1 = Node.executor then 1 else 0) = b at hpot ⊢
    omega

/-- Along every chain from an invariant configuration, trace length is
bounded by the measure. -/
theorem chain_length {r : LocalRetriever} :
    ∀ (l : List Config) (c : Config), List.Chain' (Step r) (c :: l) → Inv c →
      (c :: l).length ≤ stepMeasure c + 1 := by
  intro l
  induction l with
  | nil =>
    intro c _ _
    simp
  | cons c2 l2 ih =>
    intro c hch hinv
    have hstep : Step r c c2 := (List.chain'_cons.mp hch).1
    have hch2 : List.Chain' (Step r) (c2 :: l2) := (List.chain'_cons.mp hch).2
    have hinv2 : Inv c2 := step_inv hstep hinv
    have hmeas := step_measure hstep hinv
    have hih := ih c2 hch2 hinv2
    have hlen : (c :: c2 :: l2).length = (c2 :: l2).length + 1 := by simp
    omega

/-- C1 counterexample: a concrete request whose every SQL execution fails
performs exactly 2 generation-execution attempts — not 3 — before the
workflow transitions to the Synthesizer.  The trace below is a complete run
of the step relation; both executor configurations store a failing result,
the error count ends at 2 (the cap), and the trace holds exactly two
executor configurations. -/
theorem repair_loop_three_attempts_counterexample :
    List.Chain' (Step cxRetriever) cxTrace ∧
    cxTrace.head? =
      some (.router, initialState "How many orders were placed in 1997?" "int") ∧
    cxTrace.getLast? = some (.terminal, cxS7) ∧
    cxS4.sql_result = some { columns := [], rows := [], error := "no such column: x" } ∧
    cxS6.sql_result = some { columns := [], rows := [], error := "no such column: x" } ∧
    cxS6.error_count = some 2 ∧
    countExec cxTrace = 2 := by
  refine ⟨?_, rfl, rfl, rfl, rfl, rfl, rfl⟩
  unfold cxTrace
  refine List.chain'_cons.mpr ⟨Step.router (.ok true "sql") cxS0,
    List.chain'_cons.mpr ⟨Step.planner cxS1,
    List.chain'_cons.mpr ⟨Step.sqlGen cxGen cxS2,
    List.chain'_cons.mpr ⟨Step.executor cxDB cxS3,
    List.chain'_cons.mpr ⟨Step.sqlGen cxGen cxS4,
    List.chain'_cons.mpr ⟨Step.executor cxDB cxS5,
    List.chain'_cons.mpr ⟨Step.synthesizer cxSynth cxS6,
    List.chain'_singleton _⟩⟩⟩⟩⟩⟩⟩

/-- C1 (amended): for every request and every behaviour of the completion
and database collaborators, a workflow trace performs at most 2 total SQL
generation-execution attempts (1 initial + 1 repair) — the executor's branch
compares the already-incremented error count against the cap 2, so the
second failure already reaches it; the whole trace has at most 9
configurations, so the workflow reaches the Synthesizer and terminates in
bounded steps; and the error count strictly increases on each failing
execution. -/
theorem repair_loop_bounded (r : LocalRetriever) (q fh : String)
    (l : List Config)
    (hchain : List.Chain' (Step r) ((Node.router, initialState q fh) :: l)) :
    countExec ((Node.router, initialState q fh) :: l) ≤ 2 ∧
    ((Node.router, initialState q fh) :: l).length ≤ 9 ∧
    (∀ (o : DBOutcome) (s : AgentState), (execute_query o).error ≠ "" →
      (executor_node o s).error_count.getD 0 = s.error_count.getD 0 + 1 ∧
      sqlResultErrored (executor_node o s)) := by
  refine ⟨?_, ?_, fun o s he => ?_⟩
  · exact chain_countExec l _ hchain (inv_initial q fh)
  · exact chain_length l _ hchain (inv_initial q fh)
  · refine ⟨?_, (executor_node_errored o s).mpr he⟩
    rw [executor_node_count_err o s he]
    rfl

/-- Witness for C1 (amended): a concrete all-failing trace satisfies the
two-attempt bound. -/
theorem repair_loop_bounded_witness :
    countExec cxTrace ≤ 2 := by
  have hchain : List.Chain' (Step cxRetriever) cxTrace := by
    unfold cxTrace
    refine List.chain'_cons.mpr ⟨Step.router (.ok true "sql") cxS0,
      List.chain'_cons.mpr ⟨Step.planner cxS1,
      List.chain'_cons.mpr ⟨Step.sqlGen cxGen cxS2,
      List.chain'_cons.mpr ⟨Step.executor cxDB cxS3,
      List.chain'_cons.mpr ⟨Step.sqlGen cxGen cxS4,
      List.chain'_cons.mpr ⟨Step.executor cxDB cxS5,
      List.chain'_cons.mpr ⟨Step.synthesizer cxSynth cxS6,
      List.chain'_singleton _⟩⟩⟩⟩⟩⟩⟩
  exact (repair_loop_bounded cxRetriever "How many orders were placed in 1997?"
    "int" cxTrace.tail hchain).1

/-- C2: every reachable terminal configuration of the workflow carries
confidence exactly 0.3, 0.9 or 0.7, by the fixed rule: 0.3 when the final
SQL result carries an error, else 0.9 when at least one document was
retrieved, else 0.7 — no terminal state carries any other value. -/
theorem confidence_heuristic (r : LocalRetriever) (q fh : String) (c : Config)
    (hreach : Reachable r q fh c) (hterm : c.1 = Node.terminal) :
    (c.2.confidence = mkRat 3 10 ∨ c.2.confidence = mkRat 9 10 ∨
      c.2.confidence = mkRat 7 10) ∧
    (sqlResultErrored c.2 → c.2.confidence = mkRat 3 10) ∧
    (¬sqlResultErrored c.2 → c.2.retrieved_docs ≠ [] →
      c.2.confidence = mkRat 9 10) ∧
    (¬sqlResultErrored c.2 → c.2.retrieved_docs = [] →
      c.2.confidence = mkRat 7 10) := by
  rcases Relation.ReflTransGen.cases_tail hreach with heq | ⟨c0, _, hstep⟩
  · rw [heq] at hterm
    simp at hterm
  · obtain ⟨o, _, hsynth⟩ := step_into_terminal hstep hterm
    have herr : sqlResultErrored c.2 ↔ sqlResultErrored c0.2 := by
      unfold sqlResultErrored
      rw [hsynth, synthesizer_node_sql_result]
    have hdocs : c.2.retrieved_docs = c0.2.retrieved_docs := by
      rw [hsynth, synthesizer_node_docs]
    have hconf : c.2.confidence =
        if sqlResultErrored c0.2 then mkRat 3 10
        else if c0.2.retrieved_docs ≠ [] then mkRat 9 10
        else mkRat 7 10 := by
      rw [hsynth, synthesizer_node_confidence]
    refine ⟨?_, fun h1 => ?_, fun h1 h2 => ?_, fun h1 h2 => ?_⟩
    · rw [hconf]
      by_cases h1 : sqlResultErrored c0.2
      · rw [if_pos h1]
        exact Or.inl rfl
      · rw [if_neg h1]
        by_cases h2 : c0.2.retrieved_docs ≠ []
        · rw [if_pos h2]
          exact Or.inr (Or.inl rfl)
        · rw [if_neg h2]
          exact Or.inr (Or.inr rfl)
    · rw [hconf, if_pos (herr.mp h1)]
    · rw [hconf, if_neg (fun hx => h1 (herr.mpr hx)),
        if_pos (hdocs ▸ h2)]
    · rw [hconf, if_neg (fun hx => h1 (herr.mpr hx))]
      rw [if_neg (by rw [← hdocs, h2]; exact fun hx => hx rfl)]

/-- Witness for C2: a concrete `rag`-routed request with no documents and no
SQL execution terminates with confidence exactly 0.7. -/
theorem confidence_heuristic_witness : w2S3.confidence = mkRat 7 10 := by
  have hreach : Reachable cxRetriever "What is the refund policy?" "string"
      (Node.terminal, w2S3) :=
    Relation.ReflTransGen.head (Step.router (.ok true "rag") w2S0)
      (Relation.ReflTransGen.head (Step.retrieval w2S1)
        (Relation.ReflTransGen.single (Step.synthesizer cxSynth w2S2)))
  exact (confidence_heuristic cxRetriever "What is the refund policy?" "string"
    (Node.terminal, w2S3) hreach rfl).2.2.2 (fun hx => hx) rfl

/-- C9: within one request the route is written exactly once, by the Router
node.  The router writes a value (`isSome`); no non-router step modifies the
route (the branch-decision functions are read-only by construction of the
step relation); no edge returns to the router; and every configuration
reachable after the router's step still carries exactly the route the router
set. -/
theorem route_set_once (r : LocalRetriever) (q fh : String) :
    (∀ (o : PredictOutcome),
      (router_node (.ok (RouterModule.forward o)) (initialState q fh)).route.isSome
        = true) ∧
    (∀ c c' : Config, Step r c c' → c.1 ≠ Node.router →
      c'.2.route = c.2.route) ∧
    (∀ c c' : Config, Step r c c' → c'.1 ≠ Node.router) ∧
    (∀ (o : PredictOutcome) (c : Config),
      Relation.ReflTransGen (Step r)
        (route_after_router (router_node (.ok (RouterModule.forward o))
            (initialState q fh)),
          router_node (.ok (RouterModule.forward o)) (initialState q fh)) c →
      c.2.route =
        (router_node (.ok (RouterModule.forward o)) (initialState q fh)).route) := by
  refine ⟨fun o => router_node_route_isSome _ _,
    fun c c' h hne => step_preserves_route h hne,
    fun c c' h => step_target_ne_router h,
    fun o c hr => ?_⟩
  have key : c.2.route =
      (router_node (.ok (RouterModule.forward o)) (initialState q fh)).route ∧
      c.1 ≠ Node.router := by
    induction hr with
    | refl =>
      refine ⟨rfl, ?_⟩
      rcases route_after_router_mem
        (router_node (.ok (RouterModule.forward o)) (initialState q fh)) with
        hn | hn <;> rw [hn] <;> simp
    | tail _ hstep ih =>
      exact ⟨(step_preserves_route hstep ih.2).trans ih.1,
        step_target_ne_router hstep⟩
  exact key.1

/-- Witness for C9: after the retrieval step of a concrete `rag`-routed
request, the route still equals the value the router set. -/
theorem route_set_once_witness : w2S2.route = w2S1.route :=
  (route_set_once cxRetriever "What is the refund policy?" "string").2.2.2
    (.ok true "rag") (Node.synthesizer, w2S2)
    (Relation.ReflTransGen.single (Step.retrieval w2S1))

end Spec2Proof
